import Mathlib

/-!
# Threading-model simulator

A shallow embedding of `thread_models.hpp` / `thread_models.cpp`: user threads, kernel
threads, the shared `ThreadingModel` state and the three scheduling strategies
(Many-to-One, One-to-Many, Many-to-Many), with the properties of the specification proved
or refuted on it.

The C++ program is concurrent.  The embedding makes the position of every thread in its
code explicit and gives the program as a transition function `step` over atomic actions; a
run is a list of actions, taken one after the other, and "every interleaving" is "every
list of actions".

* An action is one critical section or one access to shared data: a call of the driver
  (`start`, `stop`, `addUserThread`), the locked part of a worker-loop iteration, each of
  the two `setState` calls of `UserThread::execute`, the write of the availability flag
  after `execute()`, the test and the body of one iteration of the scheduler's sweep, and
  each of the two statements of a detached delayed operation.
* Waiting is "the action is not enabled": a worker waiting on the condition variable has no
  action until the queue is non-empty or the run flag is cleared.  Sleeps and the random
  draws of the scheduler are choices of the run.
* Work bodies are `std::function<void()>` objects that the model never inspects; they are
  carried as tags and assumed to return without touching the model.
* Task references (`UserThread*`) are registry positions: the registry is append-only and
  owns the objects, so position and object identity coincide.  Identifiers are `int`: a new
  task receives `user_threads_.size()` converted to a 32-bit signed integer.
* `std::terminate` ends the process: the state is then marked `aborted` and no action is
  enabled in it.  The program reaches it when a second `start()` replaces a joinable
  `std::thread`, and when the Many-to-One worker, at the end of its loop, joins the thread
  it runs on.
* Not modelled: console output other than the status table, destruction of the model, and
  the unsynchronised accesses of the detached operation (each is taken as atomic).
-/

namespace ThreadSim

/-! ## Data model (`thread_models.hpp`) -/

/-- The `enum class ThreadState`. -/
inductive ThreadState
  | READY
  | RUNNING
  | BLOCKED
  | TERMINATED
  deriving DecidableEq

/-- Conversion of a `std::size_t` value to `int` (32 bits, two's complement), as applied to
the argument `user_threads_.size()` of the constructor parameter `int id`: the value modulo
`2 ^ 32`, read as a signed number. -/
def sizeToInt (n : Nat) : Int :=
  if n % 2 ^ 32 < 2 ^ 31 then ((n % 2 ^ 32 : Nat) : Int)
  else ((n % 2 ^ 32 : Nat) : Int) - 2 ^ 32

/-- The class `UserThread`: identifier (an `int`), work body (an uninterpreted tag) and
lifecycle state. -/
structure UserThread where
  id_ : Int
  task_ : Nat
  state_ : ThreadState
  deriving DecidableEq

namespace UserThread

/-- The constructor `UserThread::UserThread(id, task)`: the state starts as `READY`. -/
def create (id : Int) (task : Nat) : UserThread :=
  { id_ := id, task_ := task, state_ := ThreadState.READY }

/-- The accessor `getId`. -/
def getId (u : UserThread) : Int := u.id_

/-- The accessor `getState`. -/
def getState (u : UserThread) : ThreadState := u.state_

/-- The method `UserThread::setState`: an unconditional write. -/
def setState (u : UserThread) (state : ThreadState) : UserThread :=
  { u with state_ := state }

end UserThread

/-- The class `KernelThread`; both flags are initialised to `true` in the header. -/
structure KernelThread where
  id_ : Nat
  running_ : Bool
  available_ : Bool
  deriving DecidableEq

namespace KernelThread

/-- The constructor `KernelThread::KernelThread(id)`. -/
def create (id : Nat) : KernelThread :=
  { id_ := id, running_ := true, available_ := true }

/-- The method `KernelThread::start`. -/
def start (k : KernelThread) : KernelThread :=
  { k with running_ := true, available_ := true }

/-- The method `KernelThread::stop`, first statement: clears the running flag.  The `join`
that follows is a step of its own (`Worker.joinSelf`). -/
def stop (k : KernelThread) : KernelThread :=
  { k with running_ := false }

/-- The accessor `isAvailable`. -/
def isAvailable (k : KernelThread) : Bool := k.available_

end KernelThread

/-- Which of the three subclasses of `ThreadingModel` an object is. -/
inductive Kind
  | ManyToOne
  | OneToMany
  | ManyToMany
  deriving DecidableEq

/-- Where a worker thread stands in `kernelThreadFunc`:
* `idle`: at the loop head or waiting on the condition variable;
* `picked t`: has popped task `t` and released the lock, `execute()` has not yet written
  `RUNNING`;
* `inTask t`: inside `execute()` of task `t`, between the two `setState` calls (the body
  runs);
* `finished t`: `execute()` of task `t` has written `TERMINATED` and returned;
* `exited`: has left the loop (the Many-to-One worker: and has cleared the running flag of
  its unit). -/
inductive Pc
  | idle
  | picked (t : Nat)
  | inTask (t : Nat)
  | finished (t : Nat)
  | exited
  deriving DecidableEq

/-- Progress of one detached delayed operation spawned by the scheduler (lines 156-161):
still sleeping (`delayed`), has executed `thread->setState(READY)` (`readySet`), has
executed `ready_queue_.push(thread)` (`pushed`). -/
inductive Stage
  | delayed
  | readySet
  | pushed
  deriving DecidableEq

/-- One detached delayed operation: the captured task reference and its progress. -/
structure Unblock where
  thread : Nat
  stage : Stage
  deriving DecidableEq

/-- The class `ThreadingModel` together with the control state of the threads it spawned.

* `kind` is the class of the object (`ManyToOne`, `OneToMany` or `ManyToMany`);
* `name_ … running_` are the data members of `ThreadingModel`;
* `kernel_thread_` is the extra member of `ManyToOne` (absent in the other two classes);
* `started`, `workers`, `sched`, `unblocks` record which threads exist and where they are:
  `workers[k]` is the worker spawned for unit `k`, `sched` is the task the scheduler has
  just seen `RUNNING` and decided to block, `unblocks` are the detached delayed operations;
* `log_` is a history of the `setState` calls made so far (task, new state), oldest first;
* `aborted` records that `std::terminate` has ended the process. -/
structure ThreadingModel where
  kind : Kind
  name_ : String
  user_threads_ : List UserThread
  kernel_threads_ : List KernelThread
  ready_queue_ : List Nat
  running_ : Bool
  kernel_thread_ : Option KernelThread
  started : Bool
  workers : List Pc
  sched : Option Nat
  unblocks : List Unblock
  log_ : List (Nat × ThreadState)
  aborted : Bool
  deriving DecidableEq

namespace ThreadingModel

/-- The constructor `ThreadingModel::ThreadingModel(name)`: everything empty, run flag set. -/
def create (kind : Kind) (name : String) : ThreadingModel :=
  { kind := kind, name_ := name, user_threads_ := [], kernel_threads_ := [],
    ready_queue_ := [], running_ := true, kernel_thread_ := none, started := false,
    workers := [], sched := none, unblocks := [], log_ := [], aborted := false }

/-- The method `ThreadingModel::stop`: clears the run flag (and notifies all waiters). -/
def stop (m : ThreadingModel) : ThreadingModel :=
  { m with running_ := false }

/-- The method `ThreadingModel::addUserThread`: the new task gets `user_threads_.size()`,
converted to `int`, as identifier; its reference is pushed on the ready queue and the task is
appended to the registry. -/
def addUserThread (task : Nat) (m : ThreadingModel) : ThreadingModel :=
  { m with
    ready_queue_ := m.ready_queue_ ++ [m.user_threads_.length]
    user_threads_ := m.user_threads_ ++ [UserThread.create (sizeToInt m.user_threads_.length) task] }

/-- The state of the task a reference points to. -/
def stateOf (m : ThreadingModel) (t : Nat) : Option ThreadState :=
  (m.user_threads_[t]?).map UserThread.getState

/-- A call `thread->setState(state)` on the task referenced by `t`. -/
def setState (t : Nat) (state : ThreadState) (m : ThreadingModel) : ThreadingModel :=
  { m with
    user_threads_ := m.user_threads_.modify (fun u => u.setState state) t
    log_ := m.log_ ++ [(t, state)] }

/-- Number of registry entries whose state is `RUNNING`. -/
def runningCount (m : ThreadingModel) : Nat :=
  m.user_threads_.countP (fun u => decide (u.getState = ThreadState.RUNNING))

/-- All execution units the model owns. -/
def units (m : ThreadingModel) : List KernelThread :=
  m.kernel_thread_.toList ++ m.kernel_threads_

end ThreadingModel

/-! ## Status display (`ThreadingModel::displayStatus`) -/

/-- Output of one item under `std::setw(w)` with the default fill and alignment: padded
with blanks on the left up to width `w`, never truncated. -/
def setw (w : Nat) (s : List Char) : List Char :=
  List.replicate (w - s.length) ' ' ++ s

/-- The `switch` of `displayStatus`. -/
def stateLabel : ThreadState → List Char
  | ThreadState.READY => "READY".data
  | ThreadState.RUNNING => "RUNNING".data
  | ThreadState.BLOCKED => "BLOCKED".data
  | ThreadState.TERMINATED => "TERMINATED".data

/-- Decimal digits of a natural number, most significant first. -/
def decimalNat (n : Nat) : List Char := (Nat.repr n).data

/-- Decimal rendering of an `int` by `operator<<`: a minus sign when the value is negative,
then the digits of the magnitude. -/
def decimal (i : Int) : List Char :=
  if i < 0 then '-' :: decimalNat i.natAbs else decimalNat i.natAbs

/-- The number that a string of decimal digits denotes. -/
def digitsValue (cs : List Char) : Nat :=
  cs.foldl (fun a c => 10 * a + (c.toNat - '0'.toNat)) 0

/-- The text written by the body of the `for` loop for one task. -/
def statusRow (u : UserThread) : List Char :=
  setw 10 (decimal u.getId) ++ setw 15 (stateLabel u.getState)

/-- The text `displayStatus` writes to `std::cout`, given the name and the registry. -/
def displayStatusText (name_ : String) (user_threads_ : List UserThread) : List Char :=
  ("\n=== ".data ++ name_.data ++ " Model Status ===\n".data)
    ++ (setw 10 "Thread ID".data ++ setw 15 "State".data ++ ['\n'])
    ++ (List.replicate 30 '-' ++ ['\n'])
    ++ (user_threads_.map (fun u => statusRow u ++ ['\n'])).flatten
    ++ (List.replicate 30 '-' ++ ['\n'])

/-- The method `ThreadingModel::displayStatus`. -/
def ThreadingModel.displayStatus (m : ThreadingModel) : List Char :=
  displayStatusText m.name_ m.user_threads_

/-! ## The three models: construction and `start` -/

namespace ManyToOne

/-- The constructor `ManyToOne::ManyToOne()`. -/
def create : ThreadingModel :=
  { ThreadingModel.create Kind.ManyToOne "Many-to-One" with
    kernel_thread_ := some (KernelThread.create 0) }

/-- The method `ManyToOne::start`: spawns the single worker; the unit's own `start()` is
not called. -/
def start (m : ThreadingModel) : ThreadingModel :=
  { m with started := true, workers := [Pc.idle] }

end ManyToOne

namespace OneToMany

/-- The constructor `OneToMany::OneToMany(num_kernel_threads)`. -/
def create (num_kernel_threads : Int) : ThreadingModel :=
  { ThreadingModel.create Kind.OneToMany "One-to-Many" with
    kernel_threads_ := (List.range num_kernel_threads.toNat).map KernelThread.create }

/-- The method `OneToMany::start`: starts every unit and spawns one worker per unit. -/
def start (m : ThreadingModel) : ThreadingModel :=
  { m with
    kernel_threads_ := m.kernel_threads_.map KernelThread.start
    started := true
    workers := m.kernel_threads_.map (fun _ => Pc.idle) }

end OneToMany

namespace ManyToMany

/-- The constructor `ManyToMany::ManyToMany(num_kernel_threads)`. -/
def create (num_kernel_threads : Int) : ThreadingModel :=
  { ThreadingModel.create Kind.ManyToMany "Many-to-Many" with
    kernel_threads_ := (List.range num_kernel_threads.toNat).map KernelThread.create }

/-- The method `ManyToMany::start`: as `OneToMany::start`, and the scheduler thread is
spawned (it has not yet observed any task). -/
def start (m : ThreadingModel) : ThreadingModel :=
  { m with
    kernel_threads_ := m.kernel_threads_.map KernelThread.start
    started := true
    workers := m.kernel_threads_.map (fun _ => Pc.idle)
    sched := none }

end ManyToMany

/-! ## Atomic steps of the worker loops (`kernelThreadFunc`) -/

namespace Worker

/-- Write the availability flag of unit `k` in `kernel_threads_`. -/
def setAvailable (k : Nat) (b : Bool) (m : ThreadingModel) : ThreadingModel :=
  { m with kernel_threads_ := m.kernel_threads_.modify (fun kt => { kt with available_ := b }) k }

/-- Whether the guard `kernel_thread->isAvailable()` of the pooled loops lets worker `k`
through; the Many-to-One loop has no such guard. -/
def mayTake (k : Nat) (m : ThreadingModel) : Bool :=
  match m.kind with
  | Kind.ManyToOne => true
  | _ => (m.kernel_threads_[k]?).map KernelThread.isAvailable == some true

/-- The assignment `kernel_thread->available_ = b` of the pooled loops
(`OneToMany::kernelThreadFunc`, `ManyToMany::kernelThreadFunc`); the Many-to-One loop
contains no such assignment. -/
def markAvailable (k : Nat) (b : Bool) (m : ThreadingModel) : ThreadingModel :=
  match m.kind with
  | Kind.ManyToOne => m
  | _ => setAvailable k b m

/-- The critical section of one loop iteration: with the run flag set, a non-empty queue
(and, in the pooled models, an available unit) the worker marks its unit unavailable
(pooled models only), pops the head of the queue and releases the lock. -/
def dequeue (k : Nat) (m : ThreadingModel) : Option ThreadingModel :=
  if m.workers[k]? = some Pc.idle ∧ m.running_ = true ∧ mayTake k m = true then
    match m.ready_queue_ with
    | [] => none
    | t :: q =>
      some { markAvailable k false m with
        ready_queue_ := q
        workers := m.workers.set k (Pc.picked t) }
  else none

/-- First statement of `UserThread::execute`: `setState(RUNNING)`. -/
def executeBegin (k : Nat) (m : ThreadingModel) : Option ThreadingModel :=
  match m.workers[k]? with
  | some (Pc.picked t) =>
    some { m.setState t ThreadState.RUNNING with workers := m.workers.set k (Pc.inTask t) }
  | _ => none

/-- Last statement of `UserThread::execute`, after the body returned: `setState(TERMINATED)`. -/
def executeEnd (k : Nat) (m : ThreadingModel) : Option ThreadingModel :=
  match m.workers[k]? with
  | some (Pc.inTask t) =>
    some { m.setState t ThreadState.TERMINATED with workers := m.workers.set k (Pc.finished t) }
  | _ => none

/-- After `execute()` returned: the pooled loops set `available_ = true`; every loop then
calls `displayStatus()` (output only) and goes back to the loop head. -/
def release (k : Nat) (m : ThreadingModel) : Option ThreadingModel :=
  match m.workers[k]? with
  | some (Pc.finished _) =>
    some { markAvailable k true m with workers := m.workers.set k Pc.idle }
  | _ => none

/-- The call `kernel_thread_->stop()` that ends `ManyToOne::kernelThreadFunc`; the pooled
loops end without it. -/
def stopOwnUnit (m : ThreadingModel) : ThreadingModel :=
  match m.kind with
  | Kind.ManyToOne => { m with kernel_thread_ := m.kernel_thread_.map KernelThread.stop }
  | _ => m

/-- The worker sees the run flag cleared and leaves the loop; the Many-to-One worker then
enters `kernel_thread_->stop()` and clears the running flag of its unit. -/
def leave (k : Nat) (m : ThreadingModel) : Option ThreadingModel :=
  if m.workers[k]? = some Pc.idle ∧ m.running_ = false then
    some { stopOwnUnit m with workers := m.workers.set k Pc.exited }
  else none

/-- The `join` of `kernel_thread_->stop()` at the end of `ManyToOne::kernelThreadFunc`: the
unit's thread is joinable and is the calling thread, so `join` throws `std::system_error`,
which nothing catches: the process is terminated.  The pooled loops end without a `join`. -/
def joinSelf (k : Nat) (m : ThreadingModel) : Option ThreadingModel :=
  if m.kind = Kind.ManyToOne ∧ m.workers[k]? = some Pc.exited then
    some { m with aborted := true }
  else none

end Worker

/-! ## Atomic steps of `ManyToMany::schedulerFunc` and of the detached delayed operations -/

namespace ManyToMany

/-- One iteration of the sweep (lines 152-154) whose test `getState() == RUNNING` succeeds
for task `i` and whose random draw falls below `0.2`: the scheduler is about to block `i`.
Iterations that change nothing are not steps. -/
def schedulerObserve (i : Nat) (m : ThreadingModel) : Option ThreadingModel :=
  if m.kind = Kind.ManyToMany ∧ m.started = true ∧ m.sched = none
      ∧ m.stateOf i = some ThreadState.RUNNING then
    some { m with sched := some i }
  else none

/-- The body of that iteration: `setState(BLOCKED)` and the spawn of the detached delayed
operation. -/
def schedulerBlock (m : ThreadingModel) : Option ThreadingModel :=
  match m.sched with
  | some i =>
    some { m.setState i ThreadState.BLOCKED with
      sched := none
      unblocks := m.unblocks ++ [{ thread := i, stage := Stage.delayed }] }
  | none => none

/-- Delayed operation `j`, first statement after the sleep: `thread->setState(READY)`. -/
def unblockSetReady (j : Nat) (m : ThreadingModel) : Option ThreadingModel :=
  match m.unblocks[j]? with
  | some { thread := i, stage := Stage.delayed } =>
    some { m.setState i ThreadState.READY with
      unblocks := m.unblocks.set j { thread := i, stage := Stage.readySet } }
  | _ => none

/-- Delayed operation `j`, second statement: `ready_queue_.push(thread)`. -/
def unblockPush (j : Nat) (m : ThreadingModel) : Option ThreadingModel :=
  match m.unblocks[j]? with
  | some { thread := i, stage := Stage.readySet } =>
    some { m with
      ready_queue_ := m.ready_queue_ ++ [i]
      unblocks := m.unblocks.set j { thread := i, stage := Stage.pushed } }
  | _ => none

end ManyToMany

/-! ## Runs -/

/-- The atomic actions of a run: calls made by the driver (`start`, `stop`,
`addUserThread`) and the steps of the spawned threads. -/
inductive Action
  | start
  | stop
  | addUserThread (task : Nat)
  | dequeue (k : Nat)
  | executeBegin (k : Nat)
  | executeEnd (k : Nat)
  | release (k : Nat)
  | leave (k : Nat)
  | joinSelf (k : Nat)
  | schedulerObserve (i : Nat)
  | schedulerBlock
  | unblockSetReady (j : Nat)
  | unblockPush (j : Nat)
  deriving DecidableEq

/-- A call of the virtual `start()` on a model that has been started before.  Assigning a
new `std::thread` to a `thread_` member destroys the joinable thread stored there, which
terminates the process: `ManyToOne::start` does so at once; the pooled models run their loop
over the units, so the first unit is started and its thread replaced; with no unit the loop
does nothing, after which `OneToMany::start` returns and `ManyToMany::start` replaces the
scheduler thread.  Creating the replacement thread and destroying the old one is taken as
one step. -/
def restart (m : ThreadingModel) : ThreadingModel :=
  match m.kind, m.kernel_threads_ with
  | Kind.ManyToOne, _ => { m with aborted := true }
  | Kind.OneToMany, [] => m
  | Kind.ManyToMany, [] => { m with aborted := true }
  | _, kt :: kts => { m with kernel_threads_ := kt.start :: kts, aborted := true }

/-- The virtual `start()`. -/
def startModel (m : ThreadingModel) : Option ThreadingModel :=
  if m.started = true then some (restart m)
  else
    match m.kind with
    | Kind.ManyToOne => some (ManyToOne.start m)
    | Kind.OneToMany => some (OneToMany.start m)
    | Kind.ManyToMany => some (ManyToMany.start m)

/-- What an action does in a state of the running process; `none` when the action is not
enabled in the state. -/
def act : Action → ThreadingModel → Option ThreadingModel
  | Action.start, m => startModel m
  | Action.stop, m => some m.stop
  | Action.addUserThread task, m => some (m.addUserThread task)
  | Action.dequeue k, m => Worker.dequeue k m
  | Action.executeBegin k, m => Worker.executeBegin k m
  | Action.executeEnd k, m => Worker.executeEnd k m
  | Action.release k, m => Worker.release k m
  | Action.leave k, m => Worker.leave k m
  | Action.joinSelf k, m => Worker.joinSelf k m
  | Action.schedulerObserve i, m => ManyToMany.schedulerObserve i m
  | Action.schedulerBlock, m => ManyToMany.schedulerBlock m
  | Action.unblockSetReady j, m => ManyToMany.unblockSetReady j m
  | Action.unblockPush j, m => ManyToMany.unblockPush j m

/-- One atomic action; no action is enabled once the process has been terminated. -/
def step (a : Action) (m : ThreadingModel) : Option ThreadingModel :=
  if m.aborted = true then none else act a m

/-- A run: the actions are taken one after the other. -/
def run : List Action → ThreadingModel → Option ThreadingModel
  | [], m => some m
  | a :: rest, m => (step a m).bind (run rest)

/-! ## The Many-to-One worker loop run on its own -/

namespace ManyToOne

/-- One iteration of the loop body of `ManyToOne::kernelThreadFunc` once the wait has
returned with a non-empty queue: dequeue, `execute()`, `displayStatus()`. -/
def iteration (m : ThreadingModel) : Option ThreadingModel :=
  (((Worker.dequeue 0 m).bind (Worker.executeBegin 0)).bind (Worker.executeEnd 0)).bind
    (Worker.release 0)

/-- The loop `ManyToOne::kernelThreadFunc` run without interference from other threads
until it either leaves (run flag cleared) and ends in `kernel_thread_->stop()`, or blocks in
`cv_.wait` on an empty queue.  `fuel` bounds the number of loop-head visits; `none` means the
bound was too small. -/
def kernelThreadFunc : Nat → ThreadingModel → Option ThreadingModel
  | 0, _ => none
  | fuel + 1, m =>
    if m.running_ = false then (Worker.leave 0 m).bind (Worker.joinSelf 0)
    else
      match m.ready_queue_ with
      | [] => some m
      | _ :: _ => (iteration m).bind (kernelThreadFunc fuel)

end ManyToOne

/-! ## Observations on a state -/

/-- The task a worker holds: from its dequeue until it is back at the loop head. -/
def Pc.holds : Pc → Option Nat
  | Pc.picked t => some t
  | Pc.inTask t => some t
  | Pc.finished t => some t
  | _ => none

/-- Whether a delayed operation will still push task `t`. -/
def Unblock.awaits (u : Unblock) (t : Nat) : Bool :=
  decide (u.thread = t ∧ u.stage ≠ Stage.pushed)

namespace ThreadingModel

/-- Number of occurrences of the task reference `t` in the ready queue. -/
def queued (m : ThreadingModel) (t : Nat) : Nat := m.ready_queue_.count t

/-- Number of workers that have popped `t` and whose `execute()` has not yet written
`RUNNING`. -/
def pickedBy (m : ThreadingModel) (t : Nat) : Nat := m.workers.count (Pc.picked t)

/-- Number of workers inside `execute()` of `t`. -/
def inFlight (m : ThreadingModel) (t : Nat) : Nat := m.workers.count (Pc.inTask t)

/-- Number of workers whose `execute()` of `t` has returned and that are not yet back at
the loop head. -/
def finishedBy (m : ThreadingModel) (t : Nat) : Nat := m.workers.count (Pc.finished t)

/-- Number of delayed operations on `t` that have not yet pushed `t`. -/
def pendingPush (m : ThreadingModel) (t : Nat) : Nat :=
  m.unblocks.countP (fun u => u.awaits t)

/-- One when `t` is `RUNNING` or the scheduler has decided to block it, zero otherwise. -/
def preemptible (m : ThreadingModel) (t : Nat) : Nat :=
  if m.stateOf t = some ThreadState.RUNNING ∨ m.sched = some t then 1 else 0

/-- Everything that can still lead to a push of `t`, plus the occurrences of `t` already in
the queue. -/
def tokens (m : ThreadingModel) (t : Nat) : Nat :=
  m.queued t + m.pickedBy t + m.pendingPush t + m.preemptible t

/-- Whether worker `k` holds a task. -/
def busy (m : ThreadingModel) (k : Nat) : Bool :=
  match m.workers[k]? with
  | some pc => pc.holds.isSome
  | none => false

end ThreadingModel

/-! ## Concrete runs -/

namespace Scenario

/-- One-to-Many with two units: start, four submissions, both workers dequeue a task and
enter `execute()`. -/
def pool : List Action :=
  [Action.start, Action.addUserThread 0, Action.addUserThread 1, Action.addUserThread 2,
    Action.addUserThread 3, Action.dequeue 0, Action.executeBegin 0, Action.dequeue 1,
    Action.executeBegin 1]

/-- Two units, two tasks: each worker dequeues one task and enters its `execute()`. -/
def twoWorkers : List Action :=
  [Action.start, Action.addUserThread 0, Action.addUserThread 1, Action.dequeue 0,
    Action.executeBegin 0, Action.dequeue 1, Action.executeBegin 1]

/-- Many-to-Many: worker 0 is inside `execute()` of task 0 when the scheduler blocks the
task; the delayed operation sets it `READY` and pushes it. -/
def requeue : List Action :=
  [Action.start, Action.addUserThread 0, Action.dequeue 0, Action.executeBegin 0,
    Action.schedulerObserve 0, Action.schedulerBlock, Action.unblockSetReady 0,
    Action.unblockPush 0]

/-- The run `requeue`, after which worker 1 dequeues the task and enters `execute()`. -/
def reExecution : List Action :=
  requeue ++ [Action.dequeue 1, Action.executeBegin 1]

/-- Many-to-Many: worker 0 is inside `execute()` of task 0 when the scheduler blocks the
task. -/
def blockedInFlight : List Action :=
  [Action.start, Action.addUserThread 0, Action.dequeue 0, Action.executeBegin 0,
    Action.schedulerObserve 0, Action.schedulerBlock]

/-- One task, taken by worker 0, whose body is running. -/
def bodyRunning : List Action :=
  [Action.start, Action.addUserThread 0, Action.dequeue 0, Action.executeBegin 0]

/-- Three units and twelve tasks: task 0 is blocked by the scheduler while worker 0 is inside
its `execute()`, task 1 has run to completion on worker 1, task 2 is running on worker 2 and
the other nine wait in the queue. -/
def table : List Action :=
  [Action.start] ++ (List.range 12).map Action.addUserThread
    ++ [Action.dequeue 0, Action.executeBegin 0, Action.dequeue 1, Action.executeBegin 1,
      Action.executeEnd 1, Action.dequeue 2, Action.executeBegin 2,
      Action.schedulerObserve 0, Action.schedulerBlock]

/-- A task run to completion by worker 0. -/
def oneTaskDone : List Action :=
  bodyRunning ++ [Action.executeEnd 0, Action.release 0]

end Scenario

/-! ## Invariants -/

/-- Per task: the occurrences in the queue, the workers about to start it, the delayed
operations about to push it and its being preemptible add up to at most one, and to zero
for a reference that is not in the registry. -/
def TokenInv (m : ThreadingModel) : Prop :=
  ∀ t, m.tokens t ≤ if t < m.user_threads_.length then 1 else 0

/-- Every `RUNNING` task has a worker inside its `execute()`; there are no more workers
than units, and no worker before `start()`. -/
def RunInv (m : ThreadingModel) : Prop :=
  (m.started = false → m.workers = [])
    ∧ m.workers.length ≤ m.units.length
    ∧ (m.kind = Kind.ManyToOne → m.kernel_thread_.isSome = true)
    ∧ ∀ t, m.stateOf t = some ThreadState.RUNNING → 1 ≤ m.inFlight t

/-- In the models without a scheduler: a task is in the queue or held by one worker, never
both and never twice; a queued or just popped task is `READY`, a task whose body runs is
`RUNNING`, no task is `BLOCKED`. -/
def SeqInv (m : ThreadingModel) : Prop :=
  m.kind ≠ Kind.ManyToMany ∧ m.sched = none ∧ m.unblocks = []
    ∧ ∀ t, (m.queued t + m.pickedBy t + m.inFlight t + m.finishedBy t
          ≤ if t < m.user_threads_.length then 1 else 0)
        ∧ (1 ≤ m.queued t + m.pickedBy t → m.stateOf t = some ThreadState.READY)
        ∧ (1 ≤ m.inFlight t → m.stateOf t = some ThreadState.RUNNING)
        ∧ m.stateOf t ≠ some ThreadState.BLOCKED

/-- No two workers are inside `execute()` of the same task. -/
def SingleRunner (m : ThreadingModel) : Prop :=
  ∀ k1 k2 t : Nat,
    m.workers[k1]? = some (Pc.inTask t) → m.workers[k2]? = some (Pc.inTask t) → k1 = k2

/-- The lifecycle of the specification: `READY → RUNNING`, `RUNNING → TERMINATED` and, in
the Many-to-Many model only, `RUNNING → BLOCKED` and `BLOCKED → READY`. -/
def lifecycleAllows (kind : Kind) (old new : ThreadState) : Bool :=
  (old == ThreadState.READY && new == ThreadState.RUNNING)
    || (old == ThreadState.RUNNING && new == ThreadState.TERMINATED)
    || (kind == Kind.ManyToMany
        && ((old == ThreadState.RUNNING && new == ThreadState.BLOCKED)
          || (old == ThreadState.BLOCKED && new == ThreadState.READY)))

/-- The `setState` calls of `d` tasks executed one after the other in submission order:
`RUNNING` then `TERMINATED` for task 0, then for task 1, and so on. -/
def completionLog (d : Nat) : List (Nat × ThreadState) :=
  (List.range d).flatMap (fun i => [(i, ThreadState.RUNNING), (i, ThreadState.TERMINATED)])

/-- The Many-to-One model in any interleaving of submissions and worker steps: with `d`
the number of tasks completed so far, the queue holds the later references in order, and the
history is that of `d` tasks in submission order, followed by the `RUNNING` of task `d` when
the worker is inside its `execute()`. -/
def FifoInv (m : ThreadingModel) : Prop :=
  m.kind = Kind.ManyToOne ∧ m.sched = none ∧ m.unblocks = []
    ∧ (m.started = false → m.workers = [])
    ∧ ∃ d, d ≤ m.user_threads_.length
        ∧ (((m.workers = [] ∨ m.workers = [Pc.idle] ∨ m.workers = [Pc.exited]
                ∨ ∃ t, t + 1 = d ∧ m.workers = [Pc.finished t])
              ∧ m.log_ = completionLog d
              ∧ m.ready_queue_ = List.range' d (m.user_threads_.length - d))
          ∨ (d < m.user_threads_.length ∧ m.workers = [Pc.picked d]
              ∧ m.log_ = completionLog d
              ∧ m.ready_queue_ = List.range' (d + 1) (m.user_threads_.length - d - 1))
          ∨ (d < m.user_threads_.length ∧ m.workers = [Pc.inTask d]
              ∧ m.log_ = completionLog d ++ [(d, ThreadState.RUNNING)]
              ∧ m.ready_queue_ = List.range' (d + 1) (m.user_threads_.length - d - 1)))

/-- A model as the driver constructs it: the kind and the argument of the constructor
(`ManyToOne` takes none). -/
def construct : Kind → Int → ThreadingModel
  | Kind.ManyToOne, _ => ManyToOne.create
  | Kind.OneToMany, n => OneToMany.create n
  | Kind.ManyToMany, n => ManyToMany.create n

/-! ## Submissions and the Many-to-One loop run on its own -/

open ThreadingModel

theorem sizeToInt_of_lt (n : Nat) (h : n < 2 ^ 31) : sizeToInt n = (n : Int) := by
  have h1 : n % 2 ^ 32 = n := Nat.mod_eq_of_lt (by omega)
  simp only [sizeToInt, h1, h, if_true]

theorem map_sizeToInt_range (n : Nat) (h : n ≤ 2 ^ 31) :
    (List.range n).map sizeToInt = (List.range n).map Int.ofNat := by
  apply List.map_congr_left
  intro i hi
  exact sizeToInt_of_lt i (by have := List.mem_range.1 hi; omega)

theorem addUserThread_foldl_ids (m0 : ThreadingModel) (tasks : List Nat) :
    (tasks.foldl (fun acc t => acc.addUserThread t) m0).user_threads_.map UserThread.getId
      = m0.user_threads_.map UserThread.getId
        ++ (List.range' m0.user_threads_.length tasks.length).map sizeToInt := by
  induction tasks generalizing m0 with
  | nil => simp
  | cons t ts ih =>
    rw [List.foldl_cons, ih]
    simp [addUserThread, UserThread.create, UserThread.getId, List.range'_succ]

theorem iteration_eq (m : ThreadingModel) (t : Nat) (q : List Nat)
    (hk : m.kind = Kind.ManyToOne) (hw : m.workers = [Pc.idle]) (hr : m.running_ = true)
    (hq : m.ready_queue_ = t :: q) :
    ManyToOne.iteration m = some { m with
      ready_queue_ := q
      user_threads_ := (m.user_threads_.modify (fun u => u.setState ThreadState.RUNNING) t).modify
        (fun u => u.setState ThreadState.TERMINATED) t
      log_ := m.log_ ++ [(t, ThreadState.RUNNING)] ++ [(t, ThreadState.TERMINATED)] } := by
  simp [ManyToOne.iteration, Worker.dequeue, Worker.executeBegin, Worker.executeEnd,
    Worker.release, Worker.mayTake, Worker.markAvailable, ThreadingModel.setState, hk, hw, hr,
    hq]

theorem kernelThreadFunc_drains (q : List Nat) :
    ∀ (m : ThreadingModel) (fuel : Nat), m.kind = Kind.ManyToOne → m.workers = [Pc.idle] →
      m.running_ = true → m.ready_queue_ = q → q.length < fuel →
      ManyToOne.kernelThreadFunc fuel m = some { m with
        ready_queue_ := []
        user_threads_ := q.foldl (fun r t =>
          (r.modify (fun u => u.setState ThreadState.RUNNING) t).modify
            (fun u => u.setState ThreadState.TERMINATED) t) m.user_threads_
        log_ := m.log_ ++ q.flatMap (fun t =>
          [(t, ThreadState.RUNNING), (t, ThreadState.TERMINATED)]) } := by
  induction q with
  | nil =>
    intro m fuel hk hw hr hq hf
    obtain ⟨f, rfl⟩ : ∃ f, fuel = f + 1 := ⟨fuel - 1, by simp at hf; omega⟩
    cases m
    simp_all [ManyToOne.kernelThreadFunc]
  | cons t q ih =>
    intro m fuel hk hw hr hq hf
    obtain ⟨f, rfl⟩ : ∃ f, fuel = f + 1 := ⟨fuel - 1, by simp at hf; omega⟩
    simp only [List.length_cons] at hf
    rw [ManyToOne.kernelThreadFunc]
    simp only [hr, hq, Bool.true_eq_false, if_false]
    rw [iteration_eq m t q hk hw hr hq]
    simp only [Option.some_bind]
    refine (ih _ f ?_ ?_ ?_ ?_ ?_).trans ?_
    · exact hk
    · exact hw
    · exact hr
    · rfl
    · omega
    · simp [List.flatMap_cons, List.append_assoc, hr]

theorem getElem?_drain (q : List Nat) :
    ∀ (reg : List UserThread) (i : Nat),
      (q.foldl (fun r t =>
          (r.modify (fun u => u.setState ThreadState.RUNNING) t).modify
            (fun u => u.setState ThreadState.TERMINATED) t) reg)[i]?
        = if i ∈ q then (reg[i]?).map (fun u => u.setState ThreadState.TERMINATED)
          else reg[i]? := by
  induction q with
  | nil => intro reg i; simp
  | cons t q ih =>
    intro reg i
    rw [List.foldl_cons, ih]
    simp only [List.getElem?_modify, List.mem_cons]
    by_cases h1 : i ∈ q <;> by_cases h2 : t = i <;> cases h : reg[i]? <;>
      simp [h1, h2, h, UserThread.setState, eq_comm]

theorem foldl_addUserThread_eq (tasks : List Nat) :
    ∀ m0 : ThreadingModel, tasks.foldl (fun acc t => acc.addUserThread t) m0 = { m0 with
      ready_queue_ := m0.ready_queue_ ++ List.range' m0.user_threads_.length tasks.length
      user_threads_ := m0.user_threads_
        ++ List.zipWith (fun i t => UserThread.create (sizeToInt i) t) (List.range' m0.user_threads_.length tasks.length)
            tasks } := by
  induction tasks with
  | nil => intro m0; cases m0; simp
  | cons t ts ih =>
    intro m0
    rw [List.foldl_cons, ih]
    simp [addUserThread, List.range'_succ, List.append_assoc]

theorem foldl_addUserThread_length (tasks : List Nat) (m0 : ThreadingModel) :
    (tasks.foldl (fun acc t => acc.addUserThread t) m0).user_threads_.length
      = m0.user_threads_.length + tasks.length := by
  rw [foldl_addUserThread_eq]
  simp

theorem addUserThread_getLast? (m : ThreadingModel) (task : Nat) :
    (m.addUserThread task).user_threads_.getLast?
      = some (UserThread.create (sizeToInt m.user_threads_.length) task) := by
  simp [addUserThread]

theorem foldl_replicate_succ (n t : Nat) (m0 : ThreadingModel) :
    (List.replicate (n + 1) t).foldl (fun acc t => acc.addUserThread t) m0
      = ((List.replicate n t).foldl (fun acc t => acc.addUserThread t) m0).addUserThread t := by
  rw [List.replicate_succ', List.foldl_append]
  rfl

theorem replicate_submissions_length (n t : Nat) :
    ((List.replicate n t).foldl (fun acc t => acc.addUserThread t)
        ManyToOne.create).user_threads_.length = n := by
  rw [foldl_addUserThread_length, List.length_replicate]
  simp [ManyToOne.create, ThreadingModel.create]

theorem replicate_submissions_next (n t : Nat) :
    (((List.replicate n t).foldl (fun acc t => acc.addUserThread t)
        ManyToOne.create).addUserThread t).user_threads_.getLast?
      = some (UserThread.create (sizeToInt n) t) := by
  rw [addUserThread_getLast?, replicate_submissions_length]

theorem replicate_submissions_last (n t : Nat) :
    ((List.replicate (n + 1) t).foldl (fun acc t => acc.addUserThread t)
        ManyToOne.create).user_threads_.getLast?
      = some (UserThread.create (sizeToInt n) t) := by
  rw [foldl_replicate_succ, replicate_submissions_next]

theorem manyToOne_run_all (tasks : List Nat) (fuel : Nat) (hf : tasks.length < fuel) :
    ManyToOne.kernelThreadFunc fuel
        (tasks.foldl (fun acc t => acc.addUserThread t) (ManyToOne.start ManyToOne.create))
      = some { ManyToOne.start ManyToOne.create with
          ready_queue_ := []
          user_threads_ := (List.range' 0 tasks.length).foldl (fun r t =>
            (r.modify (fun u => u.setState ThreadState.RUNNING) t).modify
              (fun u => u.setState ThreadState.TERMINATED) t)
            (List.zipWith (fun i t => UserThread.create (sizeToInt i) t) (List.range' 0 tasks.length) tasks)
          log_ := (List.range' 0 tasks.length).flatMap (fun t =>
            [(t, ThreadState.RUNNING), (t, ThreadState.TERMINATED)]) } := by
  rw [foldl_addUserThread_eq]
  refine (kernelThreadFunc_drains (List.range' 0 tasks.length) _ fuel ?_ ?_ ?_ ?_ ?_).trans ?_
  · rfl
  · rfl
  · rfl
  · simp [ManyToOne.start, ManyToOne.create, ThreadingModel.create]
  · simpa using hf
  · simp [ManyToOne.start, ManyToOne.create, ThreadingModel.create]

theorem setw_stateLabel_length (st : ThreadState) : (setw 15 (stateLabel st)).length = 15 := by
  cases st <;> rfl

theorem digitChar_toNat (d : Nat) (h : d < 10) : (Nat.digitChar d).toNat - '0'.toNat = d := by
  interval_cases d <;> rfl

theorem digitChar_isDigit (d : Nat) (h : d < 10) : (Nat.digitChar d).isDigit = true := by
  interval_cases d <;> rfl

theorem digitChar_ne_zero (d : Nat) (h : d < 10) (h0 : d ≠ 0) : Nat.digitChar d ≠ '0' := by
  interval_cases d <;> simp_all <;> decide

theorem toDigitsCore_append (fuel : Nat) : ∀ (n : Nat) (ds : List Char),
    Nat.toDigitsCore 10 fuel n ds = Nat.toDigitsCore 10 fuel n [] ++ ds := by
  induction fuel with
  | zero => intro n ds; simp [Nat.toDigitsCore]
  | succ f ih =>
    intro n ds
    simp only [Nat.toDigitsCore]
    split_ifs with h
    · simp
    · rw [ih (n / 10) (_ :: ds), ih (n / 10) [_]]
      simp

theorem toDigitsCore_step (f n : Nat) (h : n / 10 ≠ 0) :
    Nat.toDigitsCore 10 (f + 1) n []
      = Nat.toDigitsCore 10 f (n / 10) [] ++ [Nat.digitChar (n % 10)] := by
  simp only [Nat.toDigitsCore, h, if_false]
  rw [toDigitsCore_append]

theorem toDigitsCore_last (f n : Nat) (h : n / 10 = 0) :
    Nat.toDigitsCore 10 (f + 1) n [] = [Nat.digitChar (n % 10)] := by
  simp only [Nat.toDigitsCore, h, if_true]

theorem digitsValue_append (xs : List Char) (c : Char) :
    digitsValue (xs ++ [c]) = 10 * digitsValue xs + (c.toNat - '0'.toNat) := by
  simp [digitsValue, List.foldl_append]

theorem digitsValue_toDigitsCore (fuel : Nat) : ∀ n, n < fuel →
    digitsValue (Nat.toDigitsCore 10 fuel n []) = n := by
  induction fuel with
  | zero => intro n h; omega
  | succ f ih =>
    intro n h
    by_cases h0 : n / 10 = 0
    · rw [toDigitsCore_last f n h0]
      have : n % 10 = n := by omega
      rw [this]
      simpa [digitsValue] using digitChar_toNat n (by omega)
    · rw [toDigitsCore_step f n h0, digitsValue_append, ih (n / 10) (by omega),
        digitChar_toNat (n % 10) (Nat.mod_lt _ (by decide))]
      omega

theorem isDigit_toDigitsCore (fuel : Nat) : ∀ n, n < fuel →
    ∀ c ∈ Nat.toDigitsCore 10 fuel n [], c.isDigit = true := by
  induction fuel with
  | zero => intro n h; omega
  | succ f ih =>
    intro n h c hc
    by_cases h0 : n / 10 = 0
    · rw [toDigitsCore_last f n h0] at hc
      simp at hc
      rw [hc]
      exact digitChar_isDigit _ (Nat.mod_lt _ (by decide))
    · rw [toDigitsCore_step f n h0] at hc
      simp only [List.mem_append, List.mem_singleton] at hc
      rcases hc with hc | hc
      · exact ih (n / 10) (by omega) c hc
      · rw [hc]
        exact digitChar_isDigit _ (Nat.mod_lt _ (by decide))

theorem head?_toDigitsCore (fuel : Nat) : ∀ n, n < fuel → n ≠ 0 →
    ∃ c, (Nat.toDigitsCore 10 fuel n []).head? = some c ∧ c ≠ '0' := by
  induction fuel with
  | zero => intro n h; omega
  | succ f ih =>
    intro n h hn
    by_cases h0 : n / 10 = 0
    · rw [toDigitsCore_last f n h0]
      have : n % 10 = n := by omega
      exact ⟨_, rfl, digitChar_ne_zero _ (Nat.mod_lt _ (by decide)) (by omega)⟩
    · rw [toDigitsCore_step f n h0]
      obtain ⟨c, hc, hc0⟩ := ih (n / 10) (by omega) h0
      refine ⟨c, ?_, hc0⟩
      cases hl : Nat.toDigitsCore 10 f (n / 10) [] with
      | nil => simp [hl] at hc
      | cons x xs => simp [hl] at hc ⊢; exact hc

theorem digitsValue_decimalNat (n : Nat) : digitsValue (decimalNat n) = n :=
  digitsValue_toDigitsCore (n + 1) n (Nat.lt_succ_self n)

theorem isDigit_decimalNat (n : Nat) : ∀ c ∈ decimalNat n, c.isDigit = true :=
  isDigit_toDigitsCore (n + 1) n (Nat.lt_succ_self n)

theorem head?_decimalNat (n : Nat) (h : n ≠ 0) :
    ∃ c, (decimalNat n).head? = some c ∧ c ≠ '0' :=
  head?_toDigitsCore (n + 1) n (Nat.lt_succ_self n) h

theorem decimal_ofNat (n : Nat) : decimal (n : Int) = decimalNat n := by
  simp [decimal]

theorem decimal_negSucc (n : Nat) : decimal (Int.negSucc n) = '-' :: decimalNat (n + 1) := by
  simp [decimal, Int.negSucc_lt_zero]

theorem decimalNat_length_le (n e : Nat) (he : 0 < e) (h : n < 10 ^ e) :
    (decimalNat n).length ≤ e := by
  exact Nat.repr_length n e he h

theorem decimal_length_le (i : Int) (h1 : -(10 ^ 9) < i) (h2 : i < 10 ^ 10) :
    (decimal i).length ≤ 10 := by
  unfold decimal
  split_ifs with h
  · have := decimalNat_length_le i.natAbs 9 (by decide) (by omega)
    simp only [List.length_cons]
    omega
  · exact decimalNat_length_le i.natAbs 10 (by decide) (by omega)

theorem setw_length (w : Nat) (s : List Char) : (setw w s).length = max w s.length := by
  simp only [setw, List.length_append, List.length_replicate]
  omega

theorem statusRow_length (u : UserThread) :
    (statusRow u).length = max 10 (decimal u.getId).length + 15 := by
  simp only [statusRow, List.length_append, setw_length, setw_stateLabel_length]
  rw [← setw_length 15, setw_stateLabel_length]

theorem displayStatusText_lines (name : String) (reg : List UserThread) :
    displayStatusText name reg
      = ((([[], "=== ".data ++ name.data ++ " Model Status ===".data,
            " Thread ID          State".data, "------------------------------".data]
          ++ reg.map statusRow) ++ ["------------------------------".data]).map
            (fun l => l ++ ['\n'])).flatten := by
  have e1 : "\n=== ".data = ['\n'] ++ "=== ".data := rfl
  have e2 : " Model Status ===\n".data = " Model Status ===".data ++ ['\n'] := rfl
  have e3 : setw 10 "Thread ID".data ++ setw 15 "State".data
      = " Thread ID          State".data := rfl
  have e4 : List.replicate 30 '-' = "------------------------------".data := rfl
  have e5 : (reg.map (fun u => statusRow u ++ ['\n'])).flatten
      = ((reg.map statusRow).map (fun l => l ++ ['\n'])).flatten := by
    rw [List.map_map]; rfl
  unfold displayStatusText
  rw [e1, e2, e3, e4, e5]
  simp only [List.map_append, List.flatten_append, List.map_cons, List.map_nil,
    List.flatten_cons, List.flatten_nil, List.append_assoc, List.nil_append, List.append_nil,
    List.cons_append]

/-! ## Lists -/

theorem count_set_add {α : Type} [DecidableEq α] (l : List α) (k : Nat) (a b x : α)
    (h : l[k]? = some a) :
    (l.set k b).count x + (if a = x then 1 else 0) = l.count x + (if b = x then 1 else 0) := by
  induction l generalizing k with
  | nil => simp at h
  | cons y ys ih =>
    cases k with
    | zero =>
      simp at h
      subst h
      simp [List.count_cons]
      omega
    | succ k =>
      simp at h
      have := ih k h
      simp [List.count_cons]
      omega

theorem countP_set_add {α : Type} (p : α → Bool) (l : List α) (k : Nat) (a b : α)
    (h : l[k]? = some a) :
    (l.set k b).countP p + (if p a = true then 1 else 0)
      = l.countP p + (if p b = true then 1 else 0) := by
  induction l generalizing k with
  | nil => simp at h
  | cons y ys ih =>
    cases k with
    | zero =>
      simp at h
      subst h
      simp [List.countP_cons]
      omega
    | succ k =>
      simp at h
      have := ih k h
      simp [List.countP_cons]
      omega

theorem one_le_count_of_getElem? {α : Type} [DecidableEq α] (l : List α) (k : Nat) (a : α)
    (h : l[k]? = some a) : 1 ≤ l.count a := by
  exact List.count_pos_iff.2 (List.mem_iff_getElem?.2 ⟨k, h⟩)

theorem index_unique_of_count_le_one {α : Type} [DecidableEq α] (a : α) :
    ∀ (l : List α) (k1 k2 : Nat), l.count a ≤ 1 → l[k1]? = some a → l[k2]? = some a →
      k1 = k2 := by
  intro l
  induction l with
  | nil => intro k1 k2 _ h1; simp at h1
  | cons x xs ih =>
    intro k1 k2 hc h1 h2
    rw [List.count_cons] at hc
    cases k1 with
    | zero =>
      cases k2 with
      | zero => rfl
      | succ k2 =>
        simp at h1 h2
        subst h1
        have := one_le_count_of_getElem? xs k2 x h2
        simp at hc
        omega
    | succ k1 =>
      cases k2 with
      | zero =>
        simp at h1 h2
        subst h2
        have := one_le_count_of_getElem? xs k1 x h1
        simp at hc
        omega
      | succ k2 =>
        simp at h1 h2
        have := ih k1 k2 (by omega) h1 h2
        omega

theorem countP_eq_length_filter_range {α : Type} (p : α → Bool) (l : List α) :
    l.countP p
      = ((List.range l.length).filter (fun i => decide ((l[i]?).map p = some true))).length := by
  induction l using List.reverseRecOn with
  | nil => simp
  | append_singleton l a ih =>
    rw [List.countP_append, List.length_append, List.length_singleton, List.range_succ,
      List.filter_append, List.length_append, ih]
    congr 1
    · congr 1
      apply List.filter_congr
      intro i hi
      have hi' : i < l.length := List.mem_range.1 hi
      rw [List.getElem?_append_left hi']
    · cases hp : p a <;> simp [hp, List.countP_cons, List.filter_cons]

theorem count_map_idle {α : Type} (l : List α) (x : Pc) (hx : x ≠ Pc.idle) :
    (l.map (fun _ => Pc.idle)).count x = 0 := by
  apply List.count_eq_zero.2
  intro hmem
  obtain ⟨_, _, h⟩ := List.mem_map.1 hmem
  exact hx h.symm

theorem singleton_getElem? {α : Type} {x y : α} {k : Nat} (h : [x][k]? = some y) :
    k = 0 ∧ x = y := by
  cases k with
  | zero => simpa using h
  | succ k => simp at h

theorem range'_snoc (s k : Nat) : List.range' s k ++ [s + k] = List.range' s (k + 1) := by
  rw [List.range'_concat]
  simp

/-! ## What each atomic step does -/

theorem dequeue_some {k : Nat} {m m' : ThreadingModel} (h : Worker.dequeue k m = some m') :
    ∃ t q, m.workers[k]? = some Pc.idle ∧ m.running_ = true ∧ Worker.mayTake k m = true
      ∧ m.ready_queue_ = t :: q
      ∧ m' = { Worker.markAvailable k false m with
          ready_queue_ := q
          workers := m.workers.set k (Pc.picked t) } := by
  unfold Worker.dequeue at h
  split at h
  · rename_i hg
    split at h
    · cases h
    · rename_i t q hq
      exact ⟨t, q, hg.1, hg.2.1, hg.2.2, hq, (Option.some.inj h).symm⟩
  · cases h

theorem executeBegin_some {k : Nat} {m m' : ThreadingModel}
    (h : Worker.executeBegin k m = some m') :
    ∃ t, m.workers[k]? = some (Pc.picked t)
      ∧ m' = { m.setState t ThreadState.RUNNING with
          workers := m.workers.set k (Pc.inTask t) } := by
  unfold Worker.executeBegin at h
  split at h
  · rename_i t ht
    exact ⟨t, ht, (Option.some.inj h).symm⟩
  · cases h

theorem executeEnd_some {k : Nat} {m m' : ThreadingModel}
    (h : Worker.executeEnd k m = some m') :
    ∃ t, m.workers[k]? = some (Pc.inTask t)
      ∧ m' = { m.setState t ThreadState.TERMINATED with
          workers := m.workers.set k (Pc.finished t) } := by
  unfold Worker.executeEnd at h
  split at h
  · rename_i t ht
    exact ⟨t, ht, (Option.some.inj h).symm⟩
  · cases h

theorem release_some {k : Nat} {m m' : ThreadingModel} (h : Worker.release k m = some m') :
    ∃ t, m.workers[k]? = some (Pc.finished t)
      ∧ m' = { Worker.markAvailable k true m with workers := m.workers.set k Pc.idle } := by
  unfold Worker.release at h
  split at h
  · rename_i t ht
    exact ⟨t, ht, (Option.some.inj h).symm⟩
  · cases h

theorem leave_some {k : Nat} {m m' : ThreadingModel} (h : Worker.leave k m = some m') :
    m.workers[k]? = some Pc.idle ∧ m.running_ = false
      ∧ m' = { Worker.stopOwnUnit m with workers := m.workers.set k Pc.exited } := by
  unfold Worker.leave at h
  split at h
  · rename_i hg
    exact ⟨hg.1, hg.2, (Option.some.inj h).symm⟩
  · cases h

theorem schedulerObserve_some {i : Nat} {m m' : ThreadingModel}
    (h : ManyToMany.schedulerObserve i m = some m') :
    m.kind = Kind.ManyToMany ∧ m.started = true ∧ m.sched = none
      ∧ m.stateOf i = some ThreadState.RUNNING ∧ m' = { m with sched := some i } := by
  unfold ManyToMany.schedulerObserve at h
  split at h
  · rename_i hg
    exact ⟨hg.1, hg.2.1, hg.2.2.1, hg.2.2.2, (Option.some.inj h).symm⟩
  · cases h

theorem schedulerBlock_some {m m' : ThreadingModel}
    (h : ManyToMany.schedulerBlock m = some m') :
    ∃ i, m.sched = some i
      ∧ m' = { m.setState i ThreadState.BLOCKED with
          sched := none
          unblocks := m.unblocks ++ [{ thread := i, stage := Stage.delayed }] } := by
  unfold ManyToMany.schedulerBlock at h
  split at h
  · rename_i i hi
    exact ⟨i, hi, (Option.some.inj h).symm⟩
  · cases h

theorem unblockSetReady_some {j : Nat} {m m' : ThreadingModel}
    (h : ManyToMany.unblockSetReady j m = some m') :
    ∃ i, m.unblocks[j]? = some { thread := i, stage := Stage.delayed }
      ∧ m' = { m.setState i ThreadState.READY with
          unblocks := m.unblocks.set j { thread := i, stage := Stage.readySet } } := by
  unfold ManyToMany.unblockSetReady at h
  split at h
  · rename_i i hi
    exact ⟨i, hi, (Option.some.inj h).symm⟩
  · cases h

theorem unblockPush_some {j : Nat} {m m' : ThreadingModel}
    (h : ManyToMany.unblockPush j m = some m') :
    ∃ i, m.unblocks[j]? = some { thread := i, stage := Stage.readySet }
      ∧ m' = { m with
          ready_queue_ := m.ready_queue_ ++ [i]
          unblocks := m.unblocks.set j { thread := i, stage := Stage.pushed } } := by
  unfold ManyToMany.unblockPush at h
  split at h
  · rename_i i hi
    exact ⟨i, hi, (Option.some.inj h).symm⟩
  · cases h

theorem joinSelf_some {k : Nat} {m m' : ThreadingModel} (h : Worker.joinSelf k m = some m') :
    m.kind = Kind.ManyToOne ∧ m.workers[k]? = some Pc.exited
      ∧ m' = { m with aborted := true } := by
  unfold Worker.joinSelf at h
  split at h
  · rename_i hc
    exact ⟨hc.1, hc.2, (Option.some.inj h).symm⟩
  · cases h

theorem restart_eq (m : ThreadingModel) :
    ∃ (kts : List KernelThread) (b : Bool), kts.length = m.kernel_threads_.length
      ∧ restart m = { m with kernel_threads_ := kts, aborted := b } := by
  unfold restart
  split
  · exact ⟨m.kernel_threads_, true, rfl, rfl⟩
  · rename_i hk
    exact ⟨m.kernel_threads_, m.aborted, rfl, rfl⟩
  · exact ⟨m.kernel_threads_, true, rfl, rfl⟩
  · rename_i kt kts hkts hk
    exact ⟨kt.start :: kts, true, by simp [hkts], rfl⟩

theorem startModel_some {m m' : ThreadingModel} (h : startModel m = some m') :
    (∃ (kts : List KernelThread) (b : Bool), kts.length = m.kernel_threads_.length
        ∧ m' = { m with kernel_threads_ := kts, aborted := b })
      ∨ (m.started = false
        ∧ ((m.kind = Kind.ManyToOne ∧ m' = ManyToOne.start m)
          ∨ (m.kind = Kind.OneToMany ∧ m' = OneToMany.start m)
          ∨ (m.kind = Kind.ManyToMany ∧ m' = ManyToMany.start m))) := by
  unfold startModel at h
  split at h
  · obtain ⟨kts, b, hl, he⟩ := restart_eq m
    exact Or.inl ⟨kts, b, hl, by rw [← he]; exact (Option.some.inj h).symm⟩
  · rename_i hs
    refine Or.inr ⟨by simpa using hs, ?_⟩
    split at h
    · rename_i hk; exact Or.inl ⟨hk, (Option.some.inj h).symm⟩
    · rename_i hk; exact Or.inr (Or.inl ⟨hk, (Option.some.inj h).symm⟩)
    · rename_i hk; exact Or.inr (Or.inr ⟨hk, (Option.some.inj h).symm⟩)

theorem act_of_step {a : Action} {m m' : ThreadingModel} (h : step a m = some m') :
    act a m = some m' := by
  unfold step at h
  split at h
  · cases h
  · exact h

theorem run_invariant (P : ThreadingModel → Prop)
    (hstep : ∀ a m m', P m → step a m = some m' → P m') :
    ∀ (acts : List Action) (m m' : ThreadingModel), P m → run acts m = some m' → P m' := by
  intro acts
  induction acts with
  | nil =>
    intro m m' hP h
    simp only [run, Option.some.injEq] at h
    exact h ▸ hP
  | cons a rest ih =>
    intro m m' hP h
    simp only [run] at h
    cases hs : step a m with
    | none => simp [hs] at h
    | some m1 =>
      simp only [hs, Option.some_bind] at h
      exact ih m1 m' (hstep a m m1 hP hs) h

/-! ## Task states -/

theorem stateOf_modify (l : List UserThread) (t0 t : Nat) (st : ThreadState) :
    ((l.modify (fun u => u.setState st) t0)[t]?).map UserThread.getState
      = if t0 = t then ((l[t]?).map UserThread.getState).map (fun _ => st)
        else (l[t]?).map UserThread.getState := by
  rw [List.getElem?_modify]
  by_cases h : t0 = t <;> cases hu : l[t]? <;> simp [h, hu, UserThread.setState, UserThread.getState]

theorem stateOf_append (l : List UserThread) (u : UserThread) (t : Nat) :
    (((l ++ [u])[t]?).map UserThread.getState)
      = if t = l.length then some u.getState else (l[t]?).map UserThread.getState := by
  by_cases h : t = l.length
  · subst h; simp
  · rw [if_neg h]
    rcases Nat.lt_or_gt_of_ne h with h1 | h1
    · rw [List.getElem?_append_left h1]
    · rw [List.getElem?_append_right (by omega)]
      have : t - l.length ≠ 0 := by omega
      obtain ⟨j, hj⟩ : ∃ j, t - l.length = j + 1 := ⟨t - l.length - 1, by omega⟩
      rw [hj, List.getElem?_eq_none (l := l) (by omega)]
      simp

/-! ## Fields untouched by the availability and unit writes -/

@[simp] theorem markAvailable_user_threads (k : Nat) (b : Bool) (m : ThreadingModel) :
    (Worker.markAvailable k b m).user_threads_ = m.user_threads_ := by
  unfold Worker.markAvailable; split <;> rfl

@[simp] theorem markAvailable_ready_queue (k : Nat) (b : Bool) (m : ThreadingModel) :
    (Worker.markAvailable k b m).ready_queue_ = m.ready_queue_ := by
  unfold Worker.markAvailable; split <;> rfl

@[simp] theorem markAvailable_workers (k : Nat) (b : Bool) (m : ThreadingModel) :
    (Worker.markAvailable k b m).workers = m.workers := by
  unfold Worker.markAvailable; split <;> rfl

@[simp] theorem markAvailable_sched (k : Nat) (b : Bool) (m : ThreadingModel) :
    (Worker.markAvailable k b m).sched = m.sched := by
  unfold Worker.markAvailable; split <;> rfl

@[simp] theorem markAvailable_unblocks (k : Nat) (b : Bool) (m : ThreadingModel) :
    (Worker.markAvailable k b m).unblocks = m.unblocks := by
  unfold Worker.markAvailable; split <;> rfl

@[simp] theorem markAvailable_kind (k : Nat) (b : Bool) (m : ThreadingModel) :
    (Worker.markAvailable k b m).kind = m.kind := by
  unfold Worker.markAvailable; split <;> rfl

@[simp] theorem markAvailable_kernel_thread (k : Nat) (b : Bool) (m : ThreadingModel) :
    (Worker.markAvailable k b m).kernel_thread_ = m.kernel_thread_ := by
  unfold Worker.markAvailable; split <;> rfl

@[simp] theorem markAvailable_kernel_threads_length (k : Nat) (b : Bool) (m : ThreadingModel) :
    (Worker.markAvailable k b m).kernel_threads_.length = m.kernel_threads_.length := by
  unfold Worker.markAvailable; split <;> simp [Worker.setAvailable]

@[simp] theorem stopOwnUnit_user_threads (m : ThreadingModel) :
    (Worker.stopOwnUnit m).user_threads_ = m.user_threads_ := by
  unfold Worker.stopOwnUnit; split <;> rfl

@[simp] theorem stopOwnUnit_ready_queue (m : ThreadingModel) :
    (Worker.stopOwnUnit m).ready_queue_ = m.ready_queue_ := by
  unfold Worker.stopOwnUnit; split <;> rfl

@[simp] theorem stopOwnUnit_workers (m : ThreadingModel) :
    (Worker.stopOwnUnit m).workers = m.workers := by
  unfold Worker.stopOwnUnit; split <;> rfl

@[simp] theorem stopOwnUnit_sched (m : ThreadingModel) :
    (Worker.stopOwnUnit m).sched = m.sched := by
  unfold Worker.stopOwnUnit; split <;> rfl

@[simp] theorem stopOwnUnit_unblocks (m : ThreadingModel) :
    (Worker.stopOwnUnit m).unblocks = m.unblocks := by
  unfold Worker.stopOwnUnit; split <;> rfl

@[simp] theorem stopOwnUnit_kind (m : ThreadingModel) :
    (Worker.stopOwnUnit m).kind = m.kind := by
  unfold Worker.stopOwnUnit; split <;> rfl

@[simp] theorem stopOwnUnit_kernel_threads (m : ThreadingModel) :
    (Worker.stopOwnUnit m).kernel_threads_ = m.kernel_threads_ := by
  unfold Worker.stopOwnUnit; split <;> rfl

/-! ## The token invariant -/

theorem tokenInv_dequeue {k : Nat} {m m' : ThreadingModel} (hinv : TokenInv m)
    (h : Worker.dequeue k m = some m') : TokenInv m' := by
  obtain ⟨t0, q, hw, -, -, hq, rfl⟩ := dequeue_some h
  intro t
  have hI := hinv t
  have hc := count_set_add m.workers k Pc.idle (Pc.picked t0) (Pc.picked t) hw
  simp only [tokens, queued, pickedBy, pendingPush, preemptible, stateOf, hq,
    List.count_cons, markAvailable_user_threads, markAvailable_sched,
    markAvailable_unblocks] at hI ⊢
  simp at hc
  simp only [beq_iff_eq] at hI
  rw [hc]
  split_ifs at hI ⊢ <;> omega

theorem tokenInv_executeBegin {k : Nat} {m m' : ThreadingModel} (hinv : TokenInv m)
    (h : Worker.executeBegin k m = some m') : TokenInv m' := by
  obtain ⟨t0, hw, rfl⟩ := executeBegin_some h
  intro t
  have hI := hinv t
  have hc := count_set_add m.workers k (Pc.picked t0) (Pc.inTask t0) (Pc.picked t) hw
  simp only [tokens, queued, pickedBy, pendingPush, preemptible, stateOf, setState,
    stateOf_modify, List.length_modify] at hI ⊢
  simp at hc
  by_cases e : t0 = t
  · subst e
    simp only [if_true] at hI hc ⊢
    split_ifs at hI ⊢ <;> omega
  · simp only [e, if_false] at hI hc ⊢
    omega

theorem tokenInv_executeEnd {k : Nat} {m m' : ThreadingModel} (hinv : TokenInv m)
    (h : Worker.executeEnd k m = some m') : TokenInv m' := by
  obtain ⟨t0, hw, rfl⟩ := executeEnd_some h
  intro t
  have hI := hinv t
  have hc := count_set_add m.workers k (Pc.inTask t0) (Pc.finished t0) (Pc.picked t) hw
  simp only [tokens, queued, pickedBy, pendingPush, preemptible, stateOf, setState,
    stateOf_modify, List.length_modify] at hI ⊢
  simp at hc
  rw [hc]
  by_cases e : t0 = t
  · subst e
    simp only [if_true, Option.map_map] at hI ⊢
    have : ¬ (Option.map ((fun _ => ThreadState.TERMINATED) ∘ UserThread.getState)
        m.user_threads_[t0]? = some ThreadState.RUNNING) := by
      cases m.user_threads_[t0]? <;> simp
    simp only [this, false_or] at hI ⊢
    by_cases hs : m.sched = some t0
    · simp only [hs, or_true, if_true] at hI ⊢
      exact hI
    · simp only [hs, or_false, if_false] at hI ⊢
      split_ifs at hI ⊢ <;> omega
  · simp only [e, if_false] at hI ⊢
    exact hI

theorem tokenInv_release {k : Nat} {m m' : ThreadingModel} (hinv : TokenInv m)
    (h : Worker.release k m = some m') : TokenInv m' := by
  obtain ⟨t0, hw, rfl⟩ := release_some h
  intro t
  have hI := hinv t
  have hc := count_set_add m.workers k (Pc.finished t0) Pc.idle (Pc.picked t) hw
  simp only [tokens, queued, pickedBy, pendingPush, preemptible, stateOf,
    markAvailable_user_threads, markAvailable_sched, markAvailable_unblocks,
    markAvailable_ready_queue] at hI ⊢
  simp at hc
  rw [hc]
  exact hI

theorem tokenInv_leave {k : Nat} {m m' : ThreadingModel} (hinv : TokenInv m)
    (h : Worker.leave k m = some m') : TokenInv m' := by
  obtain ⟨hw, -, rfl⟩ := leave_some h
  intro t
  have hI := hinv t
  have hc := count_set_add m.workers k Pc.idle Pc.exited (Pc.picked t) hw
  simp only [tokens, queued, pickedBy, pendingPush, preemptible, stateOf,
    stopOwnUnit_user_threads, stopOwnUnit_sched, stopOwnUnit_unblocks,
    stopOwnUnit_ready_queue] at hI ⊢
  simp at hc
  rw [hc]
  exact hI

theorem tokenInv_start {m m' : ThreadingModel} (hinv : TokenInv m)
    (h : startModel m = some m') : TokenInv m' := by
  rcases startModel_some h with ⟨kts, b, -, rfl⟩ | ⟨-, h1 | h1 | h1⟩
  · exact hinv
  all_goals obtain ⟨-, rfl⟩ := h1
  all_goals intro t
  all_goals have hI := hinv t
  · simp only [tokens, queued, pickedBy, pendingPush, preemptible, stateOf,
      ManyToOne.start] at hI ⊢
    have : List.count (Pc.picked t) [Pc.idle] = 0 := by simp [List.count_cons]
    rw [this]
    omega
  · simp only [tokens, queued, pickedBy, pendingPush, preemptible, stateOf,
      OneToMany.start, count_map_idle _ (Pc.picked t) (by simp)] at hI ⊢
    omega
  · simp only [tokens, queued, pickedBy, pendingPush, preemptible, stateOf,
      ManyToMany.start, count_map_idle _ (Pc.picked t) (by simp)] at hI ⊢
    by_cases hr : Option.map UserThread.getState m.user_threads_[t]? = some ThreadState.RUNNING
    · simp only [hr, true_or, if_true] at hI ⊢
      omega
    · simp only [hr, false_or, if_false] at hI ⊢
      have : ¬ ((none : Option Nat) = some t) := by simp
      simp only [this, if_false]
      split_ifs at hI ⊢ <;> omega

theorem tokenInv_stop {m : ThreadingModel} (hinv : TokenInv m) : TokenInv m.stop := hinv

theorem tokenInv_addUserThread {m : ThreadingModel} (task : Nat) (hinv : TokenInv m) :
    TokenInv (m.addUserThread task) := by
  intro t
  have hI := hinv t
  simp only [tokens, queued, pickedBy, pendingPush, preemptible, stateOf, addUserThread,
    stateOf_append, List.count_append, List.length_append, List.length_singleton,
    List.count_singleton, beq_iff_eq] at hI ⊢
  by_cases e : t = m.user_threads_.length
  · subst e
    simp only [if_true, lt_self_iff_false, if_false, Nat.lt_succ_self] at hI ⊢
    have hz : ¬ (m.sched = some m.user_threads_.length) := by
      intro hs
      simp [hs] at hI
    have hq : ¬ (some (UserThread.create (sizeToInt m.user_threads_.length) task).getState
        = some ThreadState.RUNNING) := by
      simp [UserThread.create, UserThread.getState]
    simp only [hz, hq, or_false, if_false] at hI ⊢
    split_ifs at hI <;> omega
  · have e' : ¬ (m.user_threads_.length = t) := fun h => e h.symm
    simp only [e, e', if_false] at hI ⊢
    split_ifs at hI ⊢ <;> omega

theorem awaits_delayed (i t : Nat) :
    Unblock.awaits { thread := i, stage := Stage.delayed } t = decide (i = t) := by
  simp [Unblock.awaits]

theorem awaits_readySet (i t : Nat) :
    Unblock.awaits { thread := i, stage := Stage.readySet } t = decide (i = t) := by
  simp [Unblock.awaits]

theorem awaits_pushed (i t : Nat) :
    Unblock.awaits { thread := i, stage := Stage.pushed } t = false := by
  simp [Unblock.awaits]

theorem tokenInv_schedulerObserve {i : Nat} {m m' : ThreadingModel} (hinv : TokenInv m)
    (h : ManyToMany.schedulerObserve i m = some m') : TokenInv m' := by
  obtain ⟨-, -, hs, hr, rfl⟩ := schedulerObserve_some h
  intro t
  have hI := hinv t
  simp only [tokens, queued, pickedBy, pendingPush, preemptible, stateOf, hs] at hI hr ⊢
  by_cases e : i = t
  · subst e
    simp only [hr, true_or, if_true] at hI ⊢
    exact hI
  · have e1 : ¬ (some i = some t) := by simpa using e
    have e2 : ¬ ((none : Option Nat) = some t) := by simp
    simp only [e1, e2, or_false] at hI ⊢
    exact hI

theorem tokenInv_schedulerBlock {m m' : ThreadingModel} (hinv : TokenInv m)
    (h : ManyToMany.schedulerBlock m = some m') : TokenInv m' := by
  obtain ⟨i, hs, rfl⟩ := schedulerBlock_some h
  intro t
  have hI := hinv t
  simp only [tokens, queued, pickedBy, pendingPush, preemptible, stateOf, setState,
    stateOf_modify, List.length_modify, List.countP_append, List.countP_singleton, hs] at hI ⊢
  have e2 : ¬ ((none : Option Nat) = some t) := by simp
  simp only [e2, or_false] at hI ⊢
  by_cases e : i = t
  · subst e
    have hb : ¬ (Option.map (fun _ => ThreadState.BLOCKED)
        (Option.map UserThread.getState m.user_threads_[i]?) = some ThreadState.RUNNING) := by
      cases m.user_threads_[i]? <;> simp
    simp only [if_true, hb, if_false, or_true, awaits_delayed, decide_True] at hI ⊢
    split_ifs at hI ⊢ <;> omega
  · have e1 : ¬ (some i = some t) := by simpa using e
    simp only [e, e1, or_false, if_false, awaits_delayed, decide_False, Bool.false_eq_true,
      Nat.add_zero] at hI ⊢
    exact hI

theorem tokenInv_unblockSetReady {j : Nat} {m m' : ThreadingModel} (hinv : TokenInv m)
    (h : ManyToMany.unblockSetReady j m = some m') : TokenInv m' := by
  obtain ⟨i, hu, rfl⟩ := unblockSetReady_some h
  intro t
  have hI := hinv t
  have hc := countP_set_add (fun u => u.awaits t)
    m.unblocks j _ { thread := i, stage := Stage.readySet } hu
  simp only [tokens, queued, pickedBy, pendingPush, preemptible, stateOf, setState,
    stateOf_modify, List.length_modify] at hI ⊢
  simp only [awaits_delayed, awaits_readySet, Nat.add_right_cancel_iff] at hc
  rw [hc]
  by_cases e : i = t
  · subst e
    have hb : ¬ (Option.map (fun _ => ThreadState.READY)
        (Option.map UserThread.getState m.user_threads_[i]?) = some ThreadState.RUNNING) := by
      cases m.user_threads_[i]? <;> simp
    simp only [if_true, hb, false_or] at hI ⊢
    by_cases hs : m.sched = some i
    · simp only [hs, or_true, if_true] at hI ⊢
      exact hI
    · simp only [hs, or_false, if_false] at hI ⊢
      split_ifs at hI ⊢ <;> omega
  · simp only [e, if_false] at hI ⊢
    exact hI

theorem tokenInv_unblockPush {j : Nat} {m m' : ThreadingModel} (hinv : TokenInv m)
    (h : ManyToMany.unblockPush j m = some m') : TokenInv m' := by
  obtain ⟨i, hu, rfl⟩ := unblockPush_some h
  intro t
  have hI := hinv t
  have hc := countP_set_add (fun u => u.awaits t)
    m.unblocks j _ { thread := i, stage := Stage.pushed } hu
  simp only [tokens, queued, pickedBy, pendingPush, preemptible, stateOf,
    List.count_append, List.count_singleton, beq_iff_eq] at hI ⊢
  simp only [awaits_readySet, awaits_pushed, decide_eq_true_eq, Bool.false_eq_true, if_false,
    Nat.add_zero] at hc
  by_cases e : i = t
  · simp only [e, if_true] at hc ⊢
    omega
  · simp only [e, if_false] at hc ⊢
    omega

theorem tokenInv_step (a : Action) (m m' : ThreadingModel) (hinv : TokenInv m)
    (h : step a m = some m') : TokenInv m' := by
  replace h := act_of_step h
  cases a with
  | start => exact tokenInv_start hinv h
  | stop =>
    simp only [act, Option.some.injEq] at h
    exact h ▸ tokenInv_stop hinv
  | addUserThread task =>
    simp only [act, Option.some.injEq] at h
    exact h ▸ tokenInv_addUserThread task hinv
  | dequeue k => exact tokenInv_dequeue hinv h
  | executeBegin k => exact tokenInv_executeBegin hinv h
  | executeEnd k => exact tokenInv_executeEnd hinv h
  | release k => exact tokenInv_release hinv h
  | leave k => exact tokenInv_leave hinv h
  | joinSelf k =>
    obtain ⟨-, -, rfl⟩ := joinSelf_some h
    exact hinv
  | schedulerObserve i => exact tokenInv_schedulerObserve hinv h
  | schedulerBlock => exact tokenInv_schedulerBlock hinv h
  | unblockSetReady j => exact tokenInv_unblockSetReady hinv h
  | unblockPush j => exact tokenInv_unblockPush hinv h

theorem tokenInv_create (kind : Kind) (name : String) (kts : List KernelThread)
    (kt : Option KernelThread) :
    TokenInv { ThreadingModel.create kind name with
      kernel_threads_ := kts, kernel_thread_ := kt } := by
  intro t
  simp [tokens, queued, pickedBy, pendingPush, preemptible, stateOf, ThreadingModel.create]

/-! ## Running tasks and workers -/

@[simp] theorem markAvailable_started (k : Nat) (b : Bool) (m : ThreadingModel) :
    (Worker.markAvailable k b m).started = m.started := by
  unfold Worker.markAvailable; split <;> rfl

@[simp] theorem stopOwnUnit_started (m : ThreadingModel) :
    (Worker.stopOwnUnit m).started = m.started := by
  unfold Worker.stopOwnUnit; split <;> rfl

@[simp] theorem stopOwnUnit_kernel_thread_toList_length (m : ThreadingModel) :
    (Worker.stopOwnUnit m).kernel_thread_.toList.length = m.kernel_thread_.toList.length := by
  unfold Worker.stopOwnUnit
  split
  · cases h : m.kernel_thread_ <;> simp [h]
  · rfl

@[simp] theorem stopOwnUnit_kernel_thread_isSome (m : ThreadingModel) :
    (Worker.stopOwnUnit m).kernel_thread_.isSome = m.kernel_thread_.isSome := by
  unfold Worker.stopOwnUnit
  split
  · cases h : m.kernel_thread_ <;> simp [h]
  · rfl

theorem runInv_dequeue {k : Nat} {m m' : ThreadingModel} (hinv : RunInv m)
    (h : Worker.dequeue k m = some m') : RunInv m' := by
  obtain ⟨t0, q, hw, -, -, hq, rfl⟩ := dequeue_some h
  obtain ⟨h1, h2, h3, h4⟩ := hinv
  refine ⟨?_, ?_, ?_, ?_⟩
  · intro hs
    have := h1 (by simpa using hs)
    simp [this] at hw
  · simpa [ThreadingModel.units] using h2
  · simpa using h3
  · intro t ht
    have hc := count_set_add m.workers k Pc.idle (Pc.picked t0) (Pc.inTask t) hw
    have := h4 t (by simpa [stateOf] using ht)
    simp only [inFlight] at this ⊢
    simp at hc
    rw [hc]
    exact this

theorem runInv_executeBegin {k : Nat} {m m' : ThreadingModel} (hinv : RunInv m)
    (h : Worker.executeBegin k m = some m') : RunInv m' := by
  obtain ⟨t0, hw, rfl⟩ := executeBegin_some h
  obtain ⟨h1, h2, h3, h4⟩ := hinv
  refine ⟨?_, ?_, ?_, ?_⟩
  · intro hs
    have := h1 (by simpa [setState] using hs)
    simp [this] at hw
  · simpa [setState, ThreadingModel.units] using h2
  · simpa [setState] using h3
  · intro t ht
    have hc := count_set_add m.workers k (Pc.picked t0) (Pc.inTask t0) (Pc.inTask t) hw
    simp only [inFlight] at h4 ⊢
    simp only [stateOf, setState, stateOf_modify] at ht
    simp at hc
    rw [hc]
    by_cases e : t0 = t
    · simp [e]
    · simp only [e, if_false] at ht ⊢
      exact h4 t ht

theorem runInv_executeEnd {k : Nat} {m m' : ThreadingModel} (hinv : RunInv m)
    (h : Worker.executeEnd k m = some m') : RunInv m' := by
  obtain ⟨t0, hw, rfl⟩ := executeEnd_some h
  obtain ⟨h1, h2, h3, h4⟩ := hinv
  refine ⟨?_, ?_, ?_, ?_⟩
  · intro hs
    have := h1 (by simpa [setState] using hs)
    simp [this] at hw
  · simpa [setState, ThreadingModel.units] using h2
  · simpa [setState] using h3
  · intro t ht
    have hc := count_set_add m.workers k (Pc.inTask t0) (Pc.finished t0) (Pc.inTask t) hw
    simp only [inFlight] at h4 ⊢
    simp only [stateOf, setState, stateOf_modify] at ht
    simp at hc
    by_cases e : t0 = t
    · subst e
      simp only [if_true] at ht
      cases hu : m.user_threads_[t0]? <;> simp [hu] at ht
    · simp only [e, if_false] at ht hc
      have := h4 t ht
      omega

theorem runInv_release {k : Nat} {m m' : ThreadingModel} (hinv : RunInv m)
    (h : Worker.release k m = some m') : RunInv m' := by
  obtain ⟨t0, hw, rfl⟩ := release_some h
  obtain ⟨h1, h2, h3, h4⟩ := hinv
  refine ⟨?_, ?_, ?_, ?_⟩
  · intro hs
    have := h1 (by simpa using hs)
    simp [this] at hw
  · simpa [ThreadingModel.units] using h2
  · simpa using h3
  · intro t ht
    have hc := count_set_add m.workers k (Pc.finished t0) Pc.idle (Pc.inTask t) hw
    have := h4 t (by simpa [stateOf] using ht)
    simp only [inFlight] at this ⊢
    simp at hc
    rw [hc]
    exact this

theorem runInv_leave {k : Nat} {m m' : ThreadingModel} (hinv : RunInv m)
    (h : Worker.leave k m = some m') : RunInv m' := by
  obtain ⟨hw, -, rfl⟩ := leave_some h
  obtain ⟨h1, h2, h3, h4⟩ := hinv
  refine ⟨?_, ?_, ?_, ?_⟩
  · intro hs
    have := h1 (by simpa using hs)
    simp [this] at hw
  · simpa [ThreadingModel.units] using h2
  · simpa using h3
  · intro t ht
    have hc := count_set_add m.workers k Pc.idle Pc.exited (Pc.inTask t) hw
    have := h4 t (by simpa [stateOf] using ht)
    simp only [inFlight] at this ⊢
    simp at hc
    rw [hc]
    exact this

theorem runInv_start {m m' : ThreadingModel} (hinv : RunInv m)
    (h : startModel m = some m') : RunInv m' := by
  obtain ⟨h1, h2, h3, h4⟩ := hinv
  rcases startModel_some h with ⟨kts, b, hl, rfl⟩ | ⟨hs, hcase⟩
  · exact ⟨h1, by simpa [ThreadingModel.units, hl] using h2, h3, h4⟩
  have hw := h1 hs
  have hno : ∀ t, m.stateOf t ≠ some ThreadState.RUNNING := by
    intro t ht
    have := h4 t ht
    simp [inFlight, hw] at this
  rcases hcase with ⟨hk, rfl⟩ | ⟨hk, rfl⟩ | ⟨hk, rfl⟩
  · refine ⟨by simp [ManyToOne.start], ?_, by simpa [ManyToOne.start] using h3, ?_⟩
    · have := h3 hk
      cases hkt : m.kernel_thread_ <;> simp [hkt] at this
      simp [ManyToOne.start, ThreadingModel.units, hkt]
    · intro t ht
      exact absurd (by simpa [stateOf, ManyToOne.start] using ht) (hno t)
  · refine ⟨by simp [OneToMany.start], by simp [OneToMany.start, ThreadingModel.units],
      by simp [OneToMany.start, hk], ?_⟩
    intro t ht
    exact absurd (by simpa [stateOf, OneToMany.start] using ht) (hno t)
  · refine ⟨by simp [ManyToMany.start], by simp [ManyToMany.start, ThreadingModel.units],
      by simp [ManyToMany.start, hk], ?_⟩
    intro t ht
    exact absurd (by simpa [stateOf, ManyToMany.start] using ht) (hno t)

theorem runInv_addUserThread {m : ThreadingModel} (task : Nat) (hinv : RunInv m) :
    RunInv (m.addUserThread task) := by
  obtain ⟨h1, h2, h3, h4⟩ := hinv
  refine ⟨h1, h2, h3, ?_⟩
  intro t ht
  simp only [stateOf, addUserThread, stateOf_append] at ht
  by_cases e : t = m.user_threads_.length
  · simp [e, UserThread.create, UserThread.getState] at ht
  · simp only [e, if_false] at ht
    exact h4 t ht

theorem runInv_schedulerObserve {i : Nat} {m m' : ThreadingModel} (hinv : RunInv m)
    (h : ManyToMany.schedulerObserve i m = some m') : RunInv m' := by
  obtain ⟨-, -, -, -, rfl⟩ := schedulerObserve_some h
  exact hinv

theorem runInv_setState_other {m : ThreadingModel} (i : Nat) (st : ThreadState)
    (hst : st ≠ ThreadState.RUNNING) (hinv : RunInv m) :
    ∀ t, (m.setState i st).stateOf t = some ThreadState.RUNNING → 1 ≤ m.inFlight t := by
  intro t ht
  simp only [stateOf, setState, stateOf_modify] at ht
  by_cases e : i = t
  · subst e
    simp only [if_true] at ht
    cases hu : m.user_threads_[i]? <;> simp [hu] at ht
    exact absurd ht hst
  · simp only [e, if_false] at ht
    exact hinv.2.2.2 t ht

theorem runInv_schedulerBlock {m m' : ThreadingModel} (hinv : RunInv m)
    (h : ManyToMany.schedulerBlock m = some m') : RunInv m' := by
  obtain ⟨i, -, rfl⟩ := schedulerBlock_some h
  refine ⟨hinv.1, hinv.2.1, hinv.2.2.1, ?_⟩
  intro t ht
  exact runInv_setState_other i ThreadState.BLOCKED (by decide) hinv t ht

theorem runInv_unblockSetReady {j : Nat} {m m' : ThreadingModel} (hinv : RunInv m)
    (h : ManyToMany.unblockSetReady j m = some m') : RunInv m' := by
  obtain ⟨i, -, rfl⟩ := unblockSetReady_some h
  refine ⟨hinv.1, hinv.2.1, hinv.2.2.1, ?_⟩
  intro t ht
  exact runInv_setState_other i ThreadState.READY (by decide) hinv t ht

theorem runInv_unblockPush {j : Nat} {m m' : ThreadingModel} (hinv : RunInv m)
    (h : ManyToMany.unblockPush j m = some m') : RunInv m' := by
  obtain ⟨i, -, rfl⟩ := unblockPush_some h
  exact hinv

theorem runInv_step (a : Action) (m m' : ThreadingModel) (hinv : RunInv m)
    (h : step a m = some m') : RunInv m' := by
  replace h := act_of_step h
  cases a with
  | start => exact runInv_start hinv h
  | stop =>
    simp only [act, Option.some.injEq] at h
    exact h ▸ hinv
  | addUserThread task =>
    simp only [act, Option.some.injEq] at h
    exact h ▸ runInv_addUserThread task hinv
  | dequeue k => exact runInv_dequeue hinv h
  | executeBegin k => exact runInv_executeBegin hinv h
  | executeEnd k => exact runInv_executeEnd hinv h
  | release k => exact runInv_release hinv h
  | leave k => exact runInv_leave hinv h
  | joinSelf k =>
    obtain ⟨-, -, rfl⟩ := joinSelf_some h
    exact hinv
  | schedulerObserve i => exact runInv_schedulerObserve hinv h
  | schedulerBlock => exact runInv_schedulerBlock hinv h
  | unblockSetReady j => exact runInv_unblockSetReady hinv h
  | unblockPush j => exact runInv_unblockPush hinv h

theorem runInv_construct (kind : Kind) (n : Int) : RunInv (construct kind n) := by
  cases kind <;>
    simp [RunInv, construct, ManyToOne.create, OneToMany.create, ManyToMany.create,
      ThreadingModel.create, stateOf]

theorem tokenInv_construct (kind : Kind) (n : Int) : TokenInv (construct kind n) := by
  cases kind
  · exact tokenInv_create _ _ _ _
  · exact tokenInv_create _ _ _ _
  · exact tokenInv_create _ _ _ _

theorem runningCount_le_workers (m : ThreadingModel)
    (h : ∀ t, m.stateOf t = some ThreadState.RUNNING → 1 ≤ m.inFlight t) :
    m.runningCount ≤ m.workers.length := by
  have hsub : ∀ t, m.stateOf t = some ThreadState.RUNNING →
      t ∈ m.workers.filterMap (fun pc => match pc with | Pc.inTask t => some t | _ => none) := by
    intro t ht
    have h1 : Pc.inTask t ∈ m.workers := List.count_pos_iff.1 (h t ht)
    exact List.mem_filterMap.2 ⟨Pc.inTask t, h1, rfl⟩
  unfold ThreadingModel.runningCount
  rw [countP_eq_length_filter_range]
  have hnd : ((List.range m.user_threads_.length).filter (fun i =>
      decide ((m.user_threads_[i]?).map (fun u => decide (u.getState = ThreadState.RUNNING))
        = some true))).Nodup := List.Nodup.filter _ (List.nodup_range _)
  have hss : ((List.range m.user_threads_.length).filter (fun i =>
      decide ((m.user_threads_[i]?).map (fun u => decide (u.getState = ThreadState.RUNNING))
        = some true)))
      ⊆ m.workers.filterMap (fun pc => match pc with | Pc.inTask t => some t | _ => none) := by
    intro t ht
    apply hsub
    have := (List.mem_filter.1 ht).2
    simp only [decide_eq_true_eq] at this
    unfold ThreadingModel.stateOf
    cases hu : m.user_threads_[t]? with
    | none => simp [hu] at this
    | some u => simpa [hu] using this
  exact le_trans (List.subperm_of_subset hnd hss).length_le (List.length_filterMap_le _ _)

theorem units_length_step (a : Action) (m m' : ThreadingModel) (h : step a m = some m') :
    m'.units.length = m.units.length := by
  replace h := act_of_step h
  cases a with
  | start =>
    obtain ⟨kts, b, hl, rfl⟩ | ⟨-, ⟨-, rfl⟩ | ⟨-, rfl⟩ | ⟨-, rfl⟩⟩ := startModel_some h <;>
      simp [ThreadingModel.units, ManyToOne.start, OneToMany.start, ManyToMany.start, *]
  | stop =>
    simp only [act, Option.some.injEq] at h
    subst h; rfl
  | addUserThread task =>
    simp only [act, Option.some.injEq] at h
    subst h; rfl
  | dequeue k =>
    obtain ⟨t0, q, -, -, -, -, rfl⟩ := dequeue_some h
    simp [ThreadingModel.units]
  | executeBegin k =>
    obtain ⟨t0, -, rfl⟩ := executeBegin_some h
    rfl
  | executeEnd k =>
    obtain ⟨t0, -, rfl⟩ := executeEnd_some h
    rfl
  | release k =>
    obtain ⟨t0, -, rfl⟩ := release_some h
    simp [ThreadingModel.units]
  | leave k =>
    obtain ⟨-, -, rfl⟩ := leave_some h
    simp [ThreadingModel.units]
  | joinSelf k =>
    obtain ⟨-, -, rfl⟩ := joinSelf_some h
    rfl
  | schedulerObserve i =>
    obtain ⟨-, -, -, -, rfl⟩ := schedulerObserve_some h
    rfl
  | schedulerBlock =>
    obtain ⟨i, -, rfl⟩ := schedulerBlock_some h
    rfl
  | unblockSetReady j =>
    obtain ⟨i, -, rfl⟩ := unblockSetReady_some h
    rfl
  | unblockPush j =>
    obtain ⟨i, -, rfl⟩ := unblockPush_some h
    rfl

theorem runningCount_le_units (kind : Kind) (n : Int) (acts : List Action) (m : ThreadingModel)
    (h : run acts (construct kind n) = some m) :
    m.runningCount ≤ (construct kind n).units.length := by
  have h1 : RunInv m := run_invariant RunInv runInv_step acts _ m (runInv_construct kind n) h
  have h2 : m.units.length = (construct kind n).units.length :=
    run_invariant (fun x => x.units.length = (construct kind n).units.length)
      (fun a x x' hx hs => (units_length_step a x x' hs).trans hx) acts _ m rfl h
  exact le_trans (runningCount_le_workers m h1.2.2.2) (h2 ▸ h1.2.1)

/-! ## The ready queue and the delayed operations -/

theorem queue_count_le_one (kind : Kind) (n : Int) (acts : List Action) (m : ThreadingModel)
    (h : run acts (construct kind n) = some m) (t : Nat) : m.ready_queue_.count t ≤ 1 := by
  have h1 : TokenInv m :=
    run_invariant TokenInv tokenInv_step acts _ m (tokenInv_construct kind n) h
  have := h1 t
  simp only [tokens, queued] at this
  split_ifs at this <;> omega

theorem queue_step (a : Action) (m m' : ThreadingModel) (h : step a m = some m') :
    m'.ready_queue_ = m.ready_queue_
      ∨ (∃ k t, a = Action.dequeue k ∧ m.ready_queue_ = t :: m'.ready_queue_)
      ∨ (∃ task, a = Action.addUserThread task
          ∧ m'.ready_queue_ = m.ready_queue_ ++ [m.user_threads_.length])
      ∨ (∃ j i, a = Action.unblockPush j
          ∧ m.unblocks[j]? = some { thread := i, stage := Stage.readySet }
          ∧ m'.ready_queue_ = m.ready_queue_ ++ [i]) := by
  replace h := act_of_step h
  cases a with
  | start =>
    obtain ⟨kts, b, -, rfl⟩ | ⟨-, ⟨-, rfl⟩ | ⟨-, rfl⟩ | ⟨-, rfl⟩⟩ := startModel_some h <;>
      exact Or.inl rfl
  | stop =>
    simp only [act, Option.some.injEq] at h
    subst h; exact Or.inl rfl
  | addUserThread task =>
    simp only [act, Option.some.injEq] at h
    subst h; exact Or.inr (Or.inr (Or.inl ⟨task, rfl, rfl⟩))
  | dequeue k =>
    obtain ⟨t0, q, -, -, -, hq, rfl⟩ := dequeue_some h
    exact Or.inr (Or.inl ⟨k, t0, rfl, hq⟩)
  | executeBegin k =>
    obtain ⟨t0, -, rfl⟩ := executeBegin_some h
    exact Or.inl rfl
  | executeEnd k =>
    obtain ⟨t0, -, rfl⟩ := executeEnd_some h
    exact Or.inl rfl
  | release k =>
    obtain ⟨t0, -, rfl⟩ := release_some h
    exact Or.inl (by simp)
  | leave k =>
    obtain ⟨-, -, rfl⟩ := leave_some h
    exact Or.inl (by simp)
  | joinSelf k =>
    obtain ⟨-, -, rfl⟩ := joinSelf_some h
    exact Or.inl rfl
  | schedulerObserve i =>
    obtain ⟨-, -, -, -, rfl⟩ := schedulerObserve_some h
    exact Or.inl rfl
  | schedulerBlock =>
    obtain ⟨i, -, rfl⟩ := schedulerBlock_some h
    exact Or.inl rfl
  | unblockSetReady j =>
    obtain ⟨i, -, rfl⟩ := unblockSetReady_some h
    exact Or.inl rfl
  | unblockPush j =>
    obtain ⟨i, hu, rfl⟩ := unblockPush_some h
    exact Or.inr (Or.inr (Or.inr ⟨j, i, rfl, hu, rfl⟩))

theorem readySet_origin (a : Action) (m m' : ThreadingModel) (h : step a m = some m')
    (j i : Nat) (hj : m'.unblocks[j]? = some { thread := i, stage := Stage.readySet }) :
    a = Action.unblockSetReady j
      ∨ m.unblocks[j]? = some { thread := i, stage := Stage.readySet } := by
  replace h := act_of_step h
  cases a with
  | start =>
    obtain ⟨kts, b, -, rfl⟩ | ⟨-, ⟨-, rfl⟩ | ⟨-, rfl⟩ | ⟨-, rfl⟩⟩ := startModel_some h <;>
      exact Or.inr hj
  | stop =>
    simp only [act, Option.some.injEq] at h
    subst h; exact Or.inr hj
  | addUserThread task =>
    simp only [act, Option.some.injEq] at h
    subst h; exact Or.inr hj
  | dequeue k =>
    obtain ⟨t0, q, -, -, -, -, rfl⟩ := dequeue_some h
    exact Or.inr (by simpa using hj)
  | executeBegin k =>
    obtain ⟨t0, -, rfl⟩ := executeBegin_some h
    exact Or.inr hj
  | executeEnd k =>
    obtain ⟨t0, -, rfl⟩ := executeEnd_some h
    exact Or.inr hj
  | release k =>
    obtain ⟨t0, -, rfl⟩ := release_some h
    exact Or.inr (by simpa using hj)
  | leave k =>
    obtain ⟨-, -, rfl⟩ := leave_some h
    exact Or.inr (by simpa using hj)
  | joinSelf k =>
    obtain ⟨-, -, rfl⟩ := joinSelf_some h
    exact Or.inr hj
  | schedulerObserve i =>
    obtain ⟨-, -, -, -, rfl⟩ := schedulerObserve_some h
    exact Or.inr hj
  | schedulerBlock =>
    obtain ⟨i0, -, rfl⟩ := schedulerBlock_some h
    right
    simp only at hj
    by_cases hlt : j < m.unblocks.length
    · rwa [List.getElem?_append_left hlt] at hj
    · rw [List.getElem?_append_right (by omega)] at hj
      cases hd : j - m.unblocks.length with
      | zero => simp [hd] at hj
      | succ d => simp [hd] at hj
  | unblockSetReady j0 =>
    obtain ⟨i0, -, rfl⟩ := unblockSetReady_some h
    by_cases e : j0 = j
    · exact Or.inl (by rw [e])
    · right
      simp only at hj
      rwa [List.getElem?_set_ne e] at hj
  | unblockPush j0 =>
    obtain ⟨i0, hu, rfl⟩ := unblockPush_some h
    right
    simp only at hj
    by_cases e : j0 = j
    · subst e
      have hlt : j0 < m.unblocks.length := (List.getElem?_eq_some_iff.1 hu).1
      rw [List.getElem?_set_self hlt] at hj
      simp at hj
    · rwa [List.getElem?_set_ne e] at hj

theorem readySet_traced (j i : Nat) :
    ∀ (acts : List Action) (m0 m : ThreadingModel), run acts m0 = some m →
      m.unblocks[j]? = some { thread := i, stage := Stage.readySet } →
      Action.unblockSetReady j ∈ acts
        ∨ m0.unblocks[j]? = some { thread := i, stage := Stage.readySet } := by
  intro acts
  induction acts with
  | nil =>
    intro m0 m h hj
    simp only [run, Option.some.injEq] at h
    subst h
    exact Or.inr hj
  | cons a rest ih =>
    intro m0 m h hj
    simp only [run] at h
    cases hs : step a m0 with
    | none => simp [hs] at h
    | some m1 =>
      simp only [hs, Option.some_bind] at h
      rcases ih m1 m h hj with h1 | h1
      · exact Or.inl (List.mem_cons_of_mem _ h1)
      · rcases readySet_origin a m0 m1 hs j i h1 with h2 | h2
        · exact Or.inl (h2 ▸ List.mem_cons_self _ _)
        · exact Or.inr h2

theorem run_append (xs ys : List Action) (m : ThreadingModel) :
    run (xs ++ ys) m = (run xs m).bind (run ys) := by
  induction xs generalizing m with
  | nil => simp [run]
  | cons a rest ih =>
    simp only [List.cons_append, run]
    cases step a m with
    | none => simp
    | some m1 => simp [ih]

theorem setReady_before_push (m0 : ThreadingModel) (h0 : m0.unblocks = [])
    (before after : List Action) (j : Nat) (m : ThreadingModel)
    (h : run (before ++ Action.unblockPush j :: after) m0 = some m) :
    Action.unblockSetReady j ∈ before := by
  rw [run_append] at h
  cases h1 : run before m0 with
  | none => simp [h1] at h
  | some m1 =>
    simp only [h1, Option.some_bind, run] at h
    cases h2 : step (Action.unblockPush j) m1 with
    | none => simp [h2] at h
    | some m2 =>
      obtain ⟨i, hu, -⟩ := unblockPush_some (act_of_step h2)
      rcases readySet_traced j i before m0 m1 h1 hu with h3 | h3
      · exact h3
      · simp [h0] at h3

theorem unblockSetReady_writes {j : Nat} {m m' : ThreadingModel}
    (h : ManyToMany.unblockSetReady j m = some m') :
    ∃ i, m.unblocks[j]? = some { thread := i, stage := Stage.delayed }
      ∧ m'.unblocks[j]? = some { thread := i, stage := Stage.readySet }
      ∧ m'.log_ = m.log_ ++ [(i, ThreadState.READY)]
      ∧ m'.ready_queue_ = m.ready_queue_
      ∧ (i < m.user_threads_.length → m'.stateOf i = some ThreadState.READY) := by
  obtain ⟨i, hu, rfl⟩ := unblockSetReady_some h
  have hlt : j < m.unblocks.length := (List.getElem?_eq_some_iff.1 hu).1
  refine ⟨i, hu, by simp [List.getElem?_set_self hlt], rfl, rfl, ?_⟩
  intro hi
  simp only [stateOf, setState, stateOf_modify, if_true]
  rw [List.getElem?_eq_getElem hi]
  rfl

/-! ## The models without a scheduler -/

theorem seqInv_dequeue {k : Nat} {m m' : ThreadingModel} (hinv : SeqInv m)
    (h : Worker.dequeue k m = some m') : SeqInv m' := by
  obtain ⟨t0, q, hw, -, -, hq, rfl⟩ := dequeue_some h
  obtain ⟨h1, h2, h3, h4⟩ := hinv
  refine ⟨by simpa using h1, by simpa using h2, by simpa using h3, ?_⟩
  intro t
  obtain ⟨ha, hb, hc, hd⟩ := h4 t
  have c1 := count_set_add m.workers k Pc.idle (Pc.picked t0) (Pc.picked t) hw
  have c2 := count_set_add m.workers k Pc.idle (Pc.picked t0) (Pc.inTask t) hw
  have c3 := count_set_add m.workers k Pc.idle (Pc.picked t0) (Pc.finished t) hw
  simp only [queued, pickedBy, inFlight, finishedBy, stateOf, hq, List.count_cons,
    markAvailable_user_threads, beq_iff_eq] at ha hb hc hd ⊢
  simp at c1 c2 c3
  rw [c1, c2, c3]
  refine ⟨?_, ?_, hc, hd⟩
  · split_ifs at ha ⊢ <;> omega
  · intro hx
    apply hb
    split_ifs at hx ⊢ <;> omega

theorem seqInv_executeBegin {k : Nat} {m m' : ThreadingModel} (hinv : SeqInv m)
    (h : Worker.executeBegin k m = some m') : SeqInv m' := by
  obtain ⟨t0, hw, rfl⟩ := executeBegin_some h
  obtain ⟨h1, h2, h3, h4⟩ := hinv
  refine ⟨h1, h2, h3, ?_⟩
  intro t
  obtain ⟨ha, hb, hc, hd⟩ := h4 t
  have c1 := count_set_add m.workers k (Pc.picked t0) (Pc.inTask t0) (Pc.picked t) hw
  have c2 := count_set_add m.workers k (Pc.picked t0) (Pc.inTask t0) (Pc.inTask t) hw
  have c3 := count_set_add m.workers k (Pc.picked t0) (Pc.inTask t0) (Pc.finished t) hw
  simp only [queued, pickedBy, inFlight, finishedBy, stateOf, setState, stateOf_modify,
    List.length_modify] at ha hb hc hd ⊢
  simp at c1 c2 c3
  rw [c2, c3]
  by_cases e : t0 = t
  · subst e
    simp only [if_true] at c1 ⊢
    have hlt : t0 < m.user_threads_.length := by
      by_contra hn
      rw [if_neg hn] at ha
      omega
    rw [if_pos hlt] at ha ⊢
    have hst : Option.map (fun _ => ThreadState.RUNNING)
        (Option.map UserThread.getState m.user_threads_[t0]?) = some ThreadState.RUNNING := by
      rw [List.getElem?_eq_getElem hlt]; rfl
    refine ⟨by omega, fun hx => by omega, fun _ => hst, ?_⟩
    rw [hst]; simp
  · simp only [e, if_false] at c1 ⊢
    rw [Nat.add_zero] at c1
    rw [c1]
    exact ⟨by simpa using ha, hb, by simpa using hc, hd⟩

theorem seqInv_executeEnd {k : Nat} {m m' : ThreadingModel} (hinv : SeqInv m)
    (h : Worker.executeEnd k m = some m') : SeqInv m' := by
  obtain ⟨t0, hw, rfl⟩ := executeEnd_some h
  obtain ⟨h1, h2, h3, h4⟩ := hinv
  refine ⟨h1, h2, h3, ?_⟩
  intro t
  obtain ⟨ha, hb, hc, hd⟩ := h4 t
  have c1 := count_set_add m.workers k (Pc.inTask t0) (Pc.finished t0) (Pc.picked t) hw
  have c2 := count_set_add m.workers k (Pc.inTask t0) (Pc.finished t0) (Pc.inTask t) hw
  have c3 := count_set_add m.workers k (Pc.inTask t0) (Pc.finished t0) (Pc.finished t) hw
  simp only [queued, pickedBy, inFlight, finishedBy, stateOf, setState, stateOf_modify,
    List.length_modify] at ha hb hc hd ⊢
  simp at c1 c2 c3
  rw [c1, c3]
  by_cases e : t0 = t
  · subst e
    simp only [if_true] at c2 ⊢
    have hlt : t0 < m.user_threads_.length := by
      by_contra hn
      rw [if_neg hn] at ha
      omega
    rw [if_pos hlt] at ha ⊢
    have hst : Option.map (fun _ => ThreadState.TERMINATED)
        (Option.map UserThread.getState m.user_threads_[t0]?)
          = some ThreadState.TERMINATED := by
      rw [List.getElem?_eq_getElem hlt]; rfl
    refine ⟨by omega, fun hx => by omega, fun hx => by omega, ?_⟩
    rw [hst]; simp
  · simp only [e, if_false] at c2 ⊢
    rw [Nat.add_zero] at c2
    rw [c2]
    exact ⟨by simpa using ha, hb, hc, hd⟩

theorem seqInv_release {k : Nat} {m m' : ThreadingModel} (hinv : SeqInv m)
    (h : Worker.release k m = some m') : SeqInv m' := by
  obtain ⟨t0, hw, rfl⟩ := release_some h
  obtain ⟨h1, h2, h3, h4⟩ := hinv
  refine ⟨by simpa using h1, by simpa using h2, by simpa using h3, ?_⟩
  intro t
  obtain ⟨ha, hb, hc, hd⟩ := h4 t
  have c1 := count_set_add m.workers k (Pc.finished t0) Pc.idle (Pc.picked t) hw
  have c2 := count_set_add m.workers k (Pc.finished t0) Pc.idle (Pc.inTask t) hw
  have c3 := count_set_add m.workers k (Pc.finished t0) Pc.idle (Pc.finished t) hw
  simp only [queued, pickedBy, inFlight, finishedBy, stateOf, markAvailable_user_threads,
    markAvailable_ready_queue] at ha hb hc hd ⊢
  simp at c1 c2 c3
  rw [c1, c2]
  refine ⟨?_, hb, hc, hd⟩
  split_ifs at c3 ha ⊢ <;> omega

theorem seqInv_leave {k : Nat} {m m' : ThreadingModel} (hinv : SeqInv m)
    (h : Worker.leave k m = some m') : SeqInv m' := by
  obtain ⟨hw, -, rfl⟩ := leave_some h
  obtain ⟨h1, h2, h3, h4⟩ := hinv
  refine ⟨by simpa using h1, by simpa using h2, by simpa using h3, ?_⟩
  intro t
  obtain ⟨ha, hb, hc, hd⟩ := h4 t
  have c1 := count_set_add m.workers k Pc.idle Pc.exited (Pc.picked t) hw
  have c2 := count_set_add m.workers k Pc.idle Pc.exited (Pc.inTask t) hw
  have c3 := count_set_add m.workers k Pc.idle Pc.exited (Pc.finished t) hw
  simp only [queued, pickedBy, inFlight, finishedBy, stateOf, stopOwnUnit_user_threads,
    stopOwnUnit_ready_queue] at ha hb hc hd ⊢
  simp at c1 c2 c3
  rw [c1, c2, c3]
  exact ⟨ha, hb, hc, hd⟩

theorem seqInv_start {m m' : ThreadingModel} (hinv : SeqInv m)
    (h : startModel m = some m') : SeqInv m' := by
  rcases startModel_some h with ⟨kts, b, -, rfl⟩ | ⟨-, hcase⟩
  · exact hinv
  obtain ⟨h1, h2, h3, h4⟩ := hinv
  rcases hcase with ⟨hk, rfl⟩ | ⟨hk, rfl⟩ | ⟨hk, rfl⟩
  · refine ⟨h1, h2, h3, ?_⟩
    intro t
    obtain ⟨ha, hb, hc, hd⟩ := h4 t
    simp only [queued, pickedBy, inFlight, finishedBy, stateOf, ManyToOne.start]
      at ha hb hc hd ⊢
    have e1 : List.count (Pc.picked t) [Pc.idle] = 0 := by simp [List.count_cons]
    have e2 : List.count (Pc.inTask t) [Pc.idle] = 0 := by simp [List.count_cons]
    have e3 : List.count (Pc.finished t) [Pc.idle] = 0 := by simp [List.count_cons]
    rw [e1, e2, e3]
    exact ⟨by omega, fun hx => hb (by omega), fun hx => by omega, hd⟩
  · refine ⟨h1, h2, h3, ?_⟩
    intro t
    obtain ⟨ha, hb, hc, hd⟩ := h4 t
    simp only [queued, pickedBy, inFlight, finishedBy, stateOf, OneToMany.start]
      at ha hb hc hd ⊢
    rw [count_map_idle _ _ (by simp), count_map_idle _ _ (by simp),
      count_map_idle _ _ (by simp)]
    exact ⟨by omega, fun hx => hb (by omega), fun hx => by omega, hd⟩
  · exact absurd hk h1

theorem seqInv_addUserThread {m : ThreadingModel} (task : Nat) (hinv : SeqInv m) :
    SeqInv (m.addUserThread task) := by
  obtain ⟨h1, h2, h3, h4⟩ := hinv
  refine ⟨h1, h2, h3, ?_⟩
  intro t
  obtain ⟨ha, hb, hc, hd⟩ := h4 t
  simp only [queued, pickedBy, inFlight, finishedBy, stateOf, addUserThread, stateOf_append,
    List.count_append, List.length_append, List.length_singleton, List.count_singleton,
    beq_iff_eq] at ha hb hc hd ⊢
  by_cases e : t = m.user_threads_.length
  · subst e
    simp only [if_true, lt_self_iff_false, if_false, Nat.lt_succ_self] at ha ⊢
    refine ⟨by omega, fun _ => rfl, fun hx => by omega, ?_⟩
    simp [UserThread.create, UserThread.getState]
  · have e' : ¬ (m.user_threads_.length = t) := fun h => e h.symm
    simp only [e, e', if_false, Nat.add_zero] at ha ⊢
    refine ⟨?_, hb, hc, hd⟩
    split_ifs at ha ⊢ <;> omega

theorem seqInv_step (a : Action) (m m' : ThreadingModel) (hinv : SeqInv m)
    (h : step a m = some m') : SeqInv m' := by
  replace h := act_of_step h
  cases a with
  | start => exact seqInv_start hinv h
  | stop =>
    simp only [act, Option.some.injEq] at h
    exact h ▸ hinv
  | addUserThread task =>
    simp only [act, Option.some.injEq] at h
    exact h ▸ seqInv_addUserThread task hinv
  | dequeue k => exact seqInv_dequeue hinv h
  | executeBegin k => exact seqInv_executeBegin hinv h
  | executeEnd k => exact seqInv_executeEnd hinv h
  | release k => exact seqInv_release hinv h
  | leave k => exact seqInv_leave hinv h
  | joinSelf k =>
    obtain ⟨-, -, rfl⟩ := joinSelf_some h
    exact hinv
  | schedulerObserve i =>
    obtain ⟨hk, -, -, -, -⟩ := schedulerObserve_some h
    exact absurd hk hinv.1
  | schedulerBlock =>
    obtain ⟨i, hs, -⟩ := schedulerBlock_some h
    rw [hinv.2.1] at hs
    cases hs
  | unblockSetReady j =>
    obtain ⟨i, hu, -⟩ := unblockSetReady_some h
    rw [hinv.2.2.1] at hu
    simp at hu
  | unblockPush j =>
    obtain ⟨i, hu, -⟩ := unblockPush_some h
    rw [hinv.2.2.1] at hu
    simp at hu

theorem seqInv_construct (kind : Kind) (n : Int) (hk : kind ≠ Kind.ManyToMany) :
    SeqInv (construct kind n) := by
  cases kind
  · simp [SeqInv, construct, ManyToOne.create, ThreadingModel.create, queued, pickedBy,
      inFlight, finishedBy, stateOf]
  · simp [SeqInv, construct, OneToMany.create, ThreadingModel.create, queued, pickedBy,
      inFlight, finishedBy, stateOf]
  · exact absurd rfl hk

theorem singleRunner_of_seqInv {m : ThreadingModel} (hinv : SeqInv m) : SingleRunner m := by
  intro k1 k2 t h1 h2
  have := (hinv.2.2.2 t).1
  simp only [queued, pickedBy, inFlight, finishedBy] at this
  refine index_unique_of_count_le_one (Pc.inTask t) m.workers k1 k2 ?_ h1 h2
  split_ifs at this <;> omega

theorem stateOf_step (a : Action) (m m' : ThreadingModel) (h : step a m = some m') (t : Nat) :
    m'.stateOf t = m.stateOf t
      ∨ (∃ task, a = Action.addUserThread task ∧ m.stateOf t = none
          ∧ m'.stateOf t = some ThreadState.READY)
      ∨ (∃ k, a = Action.executeBegin k ∧ m.workers[k]? = some (Pc.picked t)
          ∧ m'.stateOf t = (m.stateOf t).map (fun _ => ThreadState.RUNNING))
      ∨ (∃ k, a = Action.executeEnd k ∧ m.workers[k]? = some (Pc.inTask t)
          ∧ m'.stateOf t = (m.stateOf t).map (fun _ => ThreadState.TERMINATED))
      ∨ (a = Action.schedulerBlock ∧ m.sched = some t
          ∧ m'.stateOf t = (m.stateOf t).map (fun _ => ThreadState.BLOCKED))
      ∨ (∃ j, a = Action.unblockSetReady j
          ∧ m.unblocks[j]? = some { thread := t, stage := Stage.delayed }
          ∧ m'.stateOf t = (m.stateOf t).map (fun _ => ThreadState.READY)) := by
  replace h := act_of_step h
  cases a with
  | start =>
    obtain ⟨kts, b, -, rfl⟩ | ⟨-, ⟨-, rfl⟩ | ⟨-, rfl⟩ | ⟨-, rfl⟩⟩ := startModel_some h <;>
      exact Or.inl rfl
  | stop =>
    simp only [act, Option.some.injEq] at h
    subst h; exact Or.inl rfl
  | addUserThread task =>
    simp only [act, Option.some.injEq] at h
    subst h
    by_cases e : t = m.user_threads_.length
    · right; left
      refine ⟨task, rfl, ?_, ?_⟩
      · simp [stateOf, e]
      · simp [stateOf, addUserThread, e, UserThread.create, UserThread.getState]
    · left
      simp only [stateOf, addUserThread, stateOf_append, e, if_false]
  | dequeue k =>
    obtain ⟨t0, q, -, -, -, -, rfl⟩ := dequeue_some h
    exact Or.inl (by simp [stateOf])
  | executeBegin k =>
    obtain ⟨t0, hw, rfl⟩ := executeBegin_some h
    by_cases e : t0 = t
    · subst e
      exact Or.inr (Or.inr (Or.inl ⟨k, rfl, hw, by simp only [stateOf, setState, stateOf_modify, if_true]⟩))
    · exact Or.inl (by simp only [stateOf, setState, stateOf_modify, e, if_false])
  | executeEnd k =>
    obtain ⟨t0, hw, rfl⟩ := executeEnd_some h
    by_cases e : t0 = t
    · subst e
      exact Or.inr (Or.inr (Or.inr (Or.inl
        ⟨k, rfl, hw, by simp only [stateOf, setState, stateOf_modify, if_true]⟩)))
    · exact Or.inl (by simp only [stateOf, setState, stateOf_modify, e, if_false])
  | release k =>
    obtain ⟨t0, -, rfl⟩ := release_some h
    exact Or.inl (by simp [stateOf])
  | leave k =>
    obtain ⟨-, -, rfl⟩ := leave_some h
    exact Or.inl (by simp [stateOf])
  | joinSelf k =>
    obtain ⟨-, -, rfl⟩ := joinSelf_some h
    exact Or.inl rfl
  | schedulerObserve i =>
    obtain ⟨-, -, -, -, rfl⟩ := schedulerObserve_some h
    exact Or.inl rfl
  | schedulerBlock =>
    obtain ⟨i, hs, rfl⟩ := schedulerBlock_some h
    by_cases e : i = t
    · subst e
      exact Or.inr (Or.inr (Or.inr (Or.inr (Or.inl
        ⟨rfl, hs, by simp only [stateOf, setState, stateOf_modify, if_true]⟩))))
    · exact Or.inl (by simp only [stateOf, setState, stateOf_modify, e, if_false])
  | unblockSetReady j =>
    obtain ⟨i, hu, rfl⟩ := unblockSetReady_some h
    by_cases e : i = t
    · subst e
      exact Or.inr (Or.inr (Or.inr (Or.inr (Or.inr
        ⟨j, rfl, hu, by simp only [stateOf, setState, stateOf_modify, if_true]⟩))))
    · exact Or.inl (by simp only [stateOf, setState, stateOf_modify, e, if_false])
  | unblockPush j =>
    obtain ⟨i, -, rfl⟩ := unblockPush_some h
    exact Or.inl rfl

theorem seq_lifecycle {m m' : ThreadingModel} (hinv : SeqInv m) (a : Action)
    (h : step a m = some m') (t : Nat) (old : ThreadState) (hold : m.stateOf t = some old) :
    m'.stateOf t = some old
      ∨ (old = ThreadState.READY ∧ m'.stateOf t = some ThreadState.RUNNING)
      ∨ (old = ThreadState.RUNNING ∧ m'.stateOf t = some ThreadState.TERMINATED) := by
  obtain ⟨h1, h2, h3, h4⟩ := hinv
  obtain ⟨-, hb, hc, -⟩ := h4 t
  rcases stateOf_step a m m' h t with e | ⟨_, -, e, -⟩ | ⟨k, -, hw, e⟩ | ⟨k, -, hw, e⟩
      | ⟨-, hs, -⟩ | ⟨j, -, hu, -⟩
  · exact Or.inl (e.trans hold)
  · rw [hold] at e; cases e
  · have hp : 1 ≤ m.pickedBy t := one_le_count_of_getElem? m.workers k _ hw
    have hr := hb (by omega)
    rw [hold] at hr
    cases hr
    exact Or.inr (Or.inl ⟨rfl, by rw [e, hold]; rfl⟩)
  · have hp : 1 ≤ m.inFlight t := one_le_count_of_getElem? m.workers k _ hw
    have hr := hc hp
    rw [hold] at hr
    cases hr
    exact Or.inr (Or.inr ⟨rfl, by rw [e, hold]; rfl⟩)
  · rw [h2] at hs; cases hs
  · rw [h3] at hu; simp at hu

theorem seq_terminated_final (t : Nat) :
    ∀ (acts : List Action) (m m' : ThreadingModel), SeqInv m →
      m.stateOf t = some ThreadState.TERMINATED → run acts m = some m' →
      m'.stateOf t = some ThreadState.TERMINATED := by
  intro acts m m' hinv ht h
  have := run_invariant
    (fun x => SeqInv x ∧ x.stateOf t = some ThreadState.TERMINATED)
    (fun a x x' hx hs => ⟨seqInv_step a x x' hx.1 hs, by
      rcases seq_lifecycle hx.1 a hs t _ hx.2 with e | ⟨e, -⟩ | ⟨e, -⟩
      · exact e
      · cases e
      · cases e⟩) acts m m' ⟨hinv, ht⟩ h
  exact this.2

/-! ## Facts used to state the claims -/

theorem kind_step (a : Action) (m m' : ThreadingModel) (h : step a m = some m') :
    m'.kind = m.kind := by
  replace h := act_of_step h
  cases a with
  | start =>
    obtain ⟨kts, b, -, rfl⟩ | ⟨-, ⟨-, rfl⟩ | ⟨-, rfl⟩ | ⟨-, rfl⟩⟩ := startModel_some h <;> rfl
  | stop =>
    simp only [act, Option.some.injEq] at h
    subst h; rfl
  | addUserThread task =>
    simp only [act, Option.some.injEq] at h
    subst h; rfl
  | dequeue k =>
    obtain ⟨t0, q, -, -, -, -, rfl⟩ := dequeue_some h
    simp
  | executeBegin k =>
    obtain ⟨t0, -, rfl⟩ := executeBegin_some h
    rfl
  | executeEnd k =>
    obtain ⟨t0, -, rfl⟩ := executeEnd_some h
    rfl
  | release k =>
    obtain ⟨t0, -, rfl⟩ := release_some h
    simp
  | leave k =>
    obtain ⟨-, -, rfl⟩ := leave_some h
    simp
  | joinSelf k =>
    obtain ⟨-, -, rfl⟩ := joinSelf_some h
    rfl
  | schedulerObserve i =>
    obtain ⟨-, -, -, -, rfl⟩ := schedulerObserve_some h
    rfl
  | schedulerBlock =>
    obtain ⟨i, -, rfl⟩ := schedulerBlock_some h
    rfl
  | unblockSetReady j =>
    obtain ⟨i, -, rfl⟩ := unblockSetReady_some h
    rfl
  | unblockPush j =>
    obtain ⟨i, -, rfl⟩ := unblockPush_some h
    rfl

theorem kind_run (kind : Kind) (n : Int) (acts : List Action) (m : ThreadingModel)
    (h : run acts (construct kind n) = some m) : m.kind = kind := by
  have := run_invariant (fun x => x.kind = kind)
    (fun a x x' hx hs => (kind_step a x x' hs).trans hx) acts _ m (by cases kind <;> rfl) h
  exact this

theorem lifecycleAllows_ready_running (kind : Kind) :
    lifecycleAllows kind ThreadState.READY ThreadState.RUNNING = true := by
  cases kind <;> rfl

theorem lifecycleAllows_running_terminated (kind : Kind) :
    lifecycleAllows kind ThreadState.RUNNING ThreadState.TERMINATED = true := by
  cases kind <;> rfl

theorem map_task_drain (q : List Nat) (reg : List UserThread) :
    (q.foldl (fun r t =>
        (r.modify (fun u => u.setState ThreadState.RUNNING) t).modify
          (fun u => u.setState ThreadState.TERMINATED) t) reg).map (fun u => u.task_)
      = reg.map (fun u => u.task_) := by
  apply List.ext_getElem?
  intro i
  rw [List.getElem?_map, List.getElem?_map, getElem?_drain]
  by_cases h : i ∈ q <;> cases h2 : reg[i]? <;> simp [h, h2, UserThread.setState]

theorem map_task_zipWith_create (tasks : List Nat) :
    (List.zipWith (fun i t => UserThread.create (sizeToInt i) t) (List.range' 0 tasks.length) tasks).map (fun u => u.task_)
      = tasks := by
  apply List.ext_getElem?
  intro i
  simp only [List.getElem?_map, List.getElem?_zipWith]
  cases h1 : tasks[i]? with
  | none => cases h2 : (List.range' 0 tasks.length)[i]? <;> simp
  | some a =>
    have hi : i < tasks.length := (List.getElem?_eq_some_iff.1 h1).1
    have h2 : (List.range' 0 tasks.length)[i]? = some i := by
      rw [List.getElem?_eq_getElem (by simpa using hi)]
      simp
    simp [h2, UserThread.create]

/-! ## The Many-to-One model under interleaving -/

theorem completionLog_succ (d : Nat) :
    completionLog (d + 1)
      = completionLog d ++ [(d, ThreadState.RUNNING), (d, ThreadState.TERMINATED)] := by
  simp [completionLog, List.range_succ, List.flatMap_append]

theorem markAvailable_manyToOne (k : Nat) (b : Bool) (m : ThreadingModel)
    (hk : m.kind = Kind.ManyToOne) : Worker.markAvailable k b m = m := by
  unfold Worker.markAvailable
  rw [hk]

theorem fifoInv_dequeue {k : Nat} {m m' : ThreadingModel} (hinv : FifoInv m)
    (h : Worker.dequeue k m = some m') : FifoInv m' := by
  obtain ⟨t0, q, hw, -, -, hq, rfl⟩ := dequeue_some h
  obtain ⟨h1, h2, h3, h4, d, hd, hcase⟩ := hinv
  rw [markAvailable_manyToOne k false m h1]
  refine ⟨h1, h2, h3, ?_, d, hd, ?_⟩
  · intro hs
    have := h4 hs
    simp [this] at hw
  rcases hcase with ⟨hws, hlog, hqueue⟩ | ⟨-, hws, -, -⟩ | ⟨-, hws, -, -⟩
  · rcases hws with hws | hws | hws | ⟨t, -, hws⟩
    · simp [hws] at hw
    · rw [hws] at hw
      obtain ⟨rfl, -⟩ := singleton_getElem? hw
      rw [hqueue] at hq
      have hpos : m.user_threads_.length - d ≠ 0 := by
        intro hz
        rw [hz] at hq
        simp at hq
      obtain ⟨j, hj⟩ : ∃ j, m.user_threads_.length - d = j + 1 :=
        ⟨m.user_threads_.length - d - 1, by omega⟩
      rw [hj, List.range'_succ] at hq
      simp only [List.cons.injEq] at hq
      obtain ⟨rfl, rfl⟩ := hq
      right; left
      refine ⟨by dsimp only; omega, by simp [hws], hlog, ?_⟩
      dsimp only
      congr 1
      omega
    · rw [hws] at hw
      obtain ⟨-, hx⟩ := singleton_getElem? hw
      cases hx
    · rw [hws] at hw
      obtain ⟨-, hx⟩ := singleton_getElem? hw
      cases hx
  · rw [hws] at hw
    obtain ⟨-, hx⟩ := singleton_getElem? hw
    cases hx
  · rw [hws] at hw
    obtain ⟨-, hx⟩ := singleton_getElem? hw
    cases hx

theorem fifoInv_executeBegin {k : Nat} {m m' : ThreadingModel} (hinv : FifoInv m)
    (h : Worker.executeBegin k m = some m') : FifoInv m' := by
  obtain ⟨t0, hw, rfl⟩ := executeBegin_some h
  obtain ⟨h1, h2, h3, h4, d, hd, hcase⟩ := hinv
  refine ⟨h1, h2, h3, ?_, d, by simpa [setState] using hd, ?_⟩
  · intro hs
    have := h4 hs
    simp [this] at hw
  rcases hcase with ⟨hws, -, -⟩ | ⟨hlt, hws, hlog, hqueue⟩ | ⟨-, hws, -, -⟩
  · rcases hws with hws | hws | hws | ⟨t, -, hws⟩
    · simp [hws] at hw
    all_goals
      rw [hws] at hw
      obtain ⟨-, hx⟩ := singleton_getElem? hw
      cases hx
  · rw [hws] at hw
    obtain ⟨rfl, hx⟩ := singleton_getElem? hw
    cases hx
    right; right
    refine ⟨by simpa [setState] using hlt, by simp [hws], ?_, ?_⟩
    · simp [setState, hlog]
    · simpa [setState] using hqueue
  · rw [hws] at hw
    obtain ⟨-, hx⟩ := singleton_getElem? hw
    cases hx

theorem fifoInv_executeEnd {k : Nat} {m m' : ThreadingModel} (hinv : FifoInv m)
    (h : Worker.executeEnd k m = some m') : FifoInv m' := by
  obtain ⟨t0, hw, rfl⟩ := executeEnd_some h
  obtain ⟨h1, h2, h3, h4, d, hd, hcase⟩ := hinv
  rcases hcase with ⟨hws, -, -⟩ | ⟨-, hws, -, -⟩ | ⟨hlt, hws, hlog, hqueue⟩
  · rcases hws with hws | hws | hws | ⟨t, -, hws⟩
    · simp [hws] at hw
    all_goals
      rw [hws] at hw
      obtain ⟨-, hx⟩ := singleton_getElem? hw
      cases hx
  · rw [hws] at hw
    obtain ⟨-, hx⟩ := singleton_getElem? hw
    cases hx
  · rw [hws] at hw
    obtain ⟨rfl, hx⟩ := singleton_getElem? hw
    cases hx
    refine ⟨h1, h2, h3, ?_, t0 + 1, by simpa [setState] using hlt, Or.inl ⟨?_, ?_, ?_⟩⟩
    · intro hs
      have := h4 hs
      simp [this] at hws
    · exact Or.inr (Or.inr (Or.inr ⟨t0, rfl, by simp [hws]⟩))
    · simp [setState, hlog, completionLog_succ]
    · simp only [setState, List.length_modify, hqueue]
      congr 1

theorem fifoInv_release {k : Nat} {m m' : ThreadingModel} (hinv : FifoInv m)
    (h : Worker.release k m = some m') : FifoInv m' := by
  obtain ⟨t0, hw, rfl⟩ := release_some h
  obtain ⟨h1, h2, h3, h4, d, hd, hcase⟩ := hinv
  rw [markAvailable_manyToOne k true m h1]
  rcases hcase with ⟨hws, hlog, hqueue⟩ | ⟨-, hws, -, -⟩ | ⟨-, hws, -, -⟩
  · rcases hws with hws | hws | hws | ⟨t, -, hws⟩
    · simp [hws] at hw
    · rw [hws] at hw
      obtain ⟨-, hx⟩ := singleton_getElem? hw
      cases hx
    · rw [hws] at hw
      obtain ⟨-, hx⟩ := singleton_getElem? hw
      cases hx
    · rw [hws] at hw
      obtain ⟨rfl, -⟩ := singleton_getElem? hw
      refine ⟨h1, h2, h3, ?_, d, hd, Or.inl ⟨Or.inr (Or.inl (by simp [hws])), hlog, hqueue⟩⟩
      intro hs
      have := h4 hs
      simp [this] at hws
  · rw [hws] at hw
    obtain ⟨-, hx⟩ := singleton_getElem? hw
    cases hx
  · rw [hws] at hw
    obtain ⟨-, hx⟩ := singleton_getElem? hw
    cases hx

theorem fifoInv_leave {k : Nat} {m m' : ThreadingModel} (hinv : FifoInv m)
    (h : Worker.leave k m = some m') : FifoInv m' := by
  obtain ⟨hw, -, rfl⟩ := leave_some h
  obtain ⟨h1, h2, h3, h4, d, hd, hcase⟩ := hinv
  rcases hcase with ⟨hws, hlog, hqueue⟩ | ⟨-, hws, -, -⟩ | ⟨-, hws, -, -⟩
  · rcases hws with hws | hws | hws | ⟨t, -, hws⟩
    · simp [hws] at hw
    · rw [hws] at hw
      obtain ⟨rfl, -⟩ := singleton_getElem? hw
      refine ⟨by simpa using h1, by simpa using h2, by simpa using h3, ?_, d,
        by simpa using hd, Or.inl ⟨Or.inr (Or.inr (Or.inl (by simp [hws]))), ?_, ?_⟩⟩
      · intro hs
        have := h4 (by simpa using hs)
        simp [this] at hws
      · simpa [Worker.stopOwnUnit, h1] using hlog
      · simpa using hqueue
    · rw [hws] at hw
      obtain ⟨-, hx⟩ := singleton_getElem? hw
      cases hx
    · rw [hws] at hw
      obtain ⟨-, hx⟩ := singleton_getElem? hw
      cases hx
  · rw [hws] at hw
    obtain ⟨-, hx⟩ := singleton_getElem? hw
    cases hx
  · rw [hws] at hw
    obtain ⟨-, hx⟩ := singleton_getElem? hw
    cases hx

theorem fifoInv_start {m m' : ThreadingModel} (hinv : FifoInv m)
    (h : startModel m = some m') : FifoInv m' := by
  rcases startModel_some h with ⟨kts, b, -, rfl⟩ | ⟨hs, hcase⟩
  · exact hinv
  obtain ⟨h1, h2, h3, h4, d, hd, hphase⟩ := hinv
  have hw := h4 hs
  rcases hcase with ⟨-, rfl⟩ | ⟨hk, -⟩ | ⟨hk, -⟩
  · refine ⟨h1, h2, h3, by simp [ManyToOne.start], d, hd, ?_⟩
    rcases hphase with ⟨-, hlog, hqueue⟩ | ⟨-, hws, -, -⟩ | ⟨-, hws, -, -⟩
    · exact Or.inl ⟨Or.inr (Or.inl rfl), hlog, hqueue⟩
    · simp [hw] at hws
    · simp [hw] at hws
  · rw [h1] at hk; cases hk
  · rw [h1] at hk; cases hk

theorem fifoInv_addUserThread {m : ThreadingModel} (task : Nat) (hinv : FifoInv m) :
    FifoInv (m.addUserThread task) := by
  obtain ⟨h1, h2, h3, h4, d, hd, hphase⟩ := hinv
  refine ⟨h1, h2, h3, h4, d, by simp [addUserThread]; omega, ?_⟩
  rcases hphase with ⟨hws, hlog, hqueue⟩ | ⟨hlt, hws, hlog, hqueue⟩ | ⟨hlt, hws, hlog, hqueue⟩
  · refine Or.inl ⟨hws, hlog, ?_⟩
    simp only [addUserThread, List.length_append, List.length_singleton, hqueue]
    have e : m.user_threads_.length = d + (m.user_threads_.length - d) := by omega
    rw [show m.user_threads_.length + 1 - d = (m.user_threads_.length - d) + 1 by omega]
    rw [← range'_snoc]
    congr 2
  · refine Or.inr (Or.inl ⟨by simp [addUserThread]; omega, hws, hlog, ?_⟩)
    simp only [addUserThread, List.length_append, List.length_singleton, hqueue]
    have e : m.user_threads_.length = (d + 1) + (m.user_threads_.length - d - 1) := by omega
    rw [show m.user_threads_.length + 1 - d - 1 = (m.user_threads_.length - d - 1) + 1 by omega]
    rw [← range'_snoc]
    congr 2
  · refine Or.inr (Or.inr ⟨by simp [addUserThread]; omega, hws, hlog, ?_⟩)
    simp only [addUserThread, List.length_append, List.length_singleton, hqueue]
    have e : m.user_threads_.length = (d + 1) + (m.user_threads_.length - d - 1) := by omega
    rw [show m.user_threads_.length + 1 - d - 1 = (m.user_threads_.length - d - 1) + 1 by omega]
    rw [← range'_snoc]
    congr 2

theorem fifoInv_step (a : Action) (m m' : ThreadingModel) (hinv : FifoInv m)
    (h : step a m = some m') : FifoInv m' := by
  replace h := act_of_step h
  cases a with
  | start => exact fifoInv_start hinv h
  | stop =>
    simp only [act, Option.some.injEq] at h
    exact h ▸ hinv
  | addUserThread task =>
    simp only [act, Option.some.injEq] at h
    exact h ▸ fifoInv_addUserThread task hinv
  | dequeue k => exact fifoInv_dequeue hinv h
  | executeBegin k => exact fifoInv_executeBegin hinv h
  | executeEnd k => exact fifoInv_executeEnd hinv h
  | release k => exact fifoInv_release hinv h
  | leave k => exact fifoInv_leave hinv h
  | joinSelf k =>
    obtain ⟨-, -, rfl⟩ := joinSelf_some h
    exact hinv
  | schedulerObserve i =>
    obtain ⟨hk, -, -, -, -⟩ := schedulerObserve_some h
    rw [hinv.1] at hk
    cases hk
  | schedulerBlock =>
    obtain ⟨i, hs, -⟩ := schedulerBlock_some h
    rw [hinv.2.1] at hs
    cases hs
  | unblockSetReady j =>
    obtain ⟨i, hu, -⟩ := unblockSetReady_some h
    rw [hinv.2.2.1] at hu
    simp at hu
  | unblockPush j =>
    obtain ⟨i, hu, -⟩ := unblockPush_some h
    rw [hinv.2.2.1] at hu
    simp at hu

theorem fifoInv_create : FifoInv ManyToOne.create := by
  refine ⟨rfl, rfl, rfl, fun _ => rfl, 0, Nat.le_refl _, Or.inl ⟨Or.inl rfl, rfl, rfl⟩⟩

theorem manyToOne_log_shape (acts : List Action) (m : ThreadingModel)
    (h : run acts ManyToOne.create = some m) :
    ∃ d, d ≤ m.user_threads_.length
      ∧ (m.log_ = completionLog d ∨ m.log_ = completionLog d ++ [(d, ThreadState.RUNNING)]) := by
  obtain ⟨-, -, -, -, d, hd, hphase⟩ :=
    run_invariant FifoInv fifoInv_step acts _ m fifoInv_create h
  refine ⟨d, hd, ?_⟩
  rcases hphase with ⟨-, hlog, -⟩ | ⟨-, -, hlog, -⟩ | ⟨-, -, hlog, -⟩
  · exact Or.inl hlog
  · exact Or.inl hlog
  · exact Or.inr hlog

/-! ## The claims -/

/-- C1 (as amended): `addUserThread` creates exactly one task, in state `READY`, whose
identifier is the registry size before the call converted to `int`; it appends the task as
the last registry entry and its reference as the last queue entry, and leaves the earlier
entries of both as they were.  While the registry holds fewer than `2 ^ 31` tasks the
identifier equals the registry size, so after `n ≤ 2 ^ 31` calls on a freshly constructed
model (of any of the three kinds) the identifiers in the registry are `0, 1, …, n-1` in that
order. -/
theorem C1_addUserThread_appends_fresh_ready_task (m : ThreadingModel) (task : Nat)
    (kind : Kind) (n : Int) (tasks : List Nat)
    (hm : m.user_threads_.length < 2 ^ 31) (hn : tasks.length ≤ 2 ^ 31) :
    (m.addUserThread task).user_threads_
        = m.user_threads_
          ++ [{ id_ := Int.ofNat m.user_threads_.length, task_ := task,
                state_ := ThreadState.READY }]
    ∧ (m.addUserThread task).ready_queue_ = m.ready_queue_ ++ [m.user_threads_.length]
    ∧ (tasks.foldl (fun acc t => acc.addUserThread t) (construct kind n)).user_threads_.map
        UserThread.getId = (List.range tasks.length).map Int.ofNat
    ∧ (∀ (m0 : ThreadingModel) (t : Nat),
        (m0.addUserThread t).user_threads_
            = m0.user_threads_
              ++ [{ id_ := sizeToInt m0.user_threads_.length, task_ := t,
                    state_ := ThreadState.READY }]
          ∧ (m0.addUserThread t).ready_queue_ = m0.ready_queue_ ++ [m0.user_threads_.length]) := by
  refine ⟨?_, rfl, ?_, fun m0 t => ⟨rfl, rfl⟩⟩
  · show m.user_threads_ ++ [UserThread.create (sizeToInt m.user_threads_.length) task] = _
    rw [sizeToInt_of_lt _ hm]
    rfl
  · rw [addUserThread_foldl_ids, ← map_sizeToInt_range _ hn]
    cases kind <;>
      simp [construct, ManyToOne.create, OneToMany.create, ManyToMany.create,
        ThreadingModel.create, List.range_eq_range']

/-- A submission to a model that holds one task, and three submissions to a fresh pool. -/
theorem C1_witness :
    ((ManyToOne.create.addUserThread 5).addUserThread 6).user_threads_
        = [{ id_ := 0, task_ := 5, state_ := ThreadState.READY },
           { id_ := 1, task_ := 6, state_ := ThreadState.READY }]
    ∧ ((ManyToOne.create.addUserThread 5).addUserThread 6).ready_queue_ = [0, 1]
    ∧ ([10, 11, 12].foldl (fun acc t => acc.addUserThread t)
        (construct Kind.OneToMany 2)).user_threads_.map UserThread.getId = [0, 1, 2] :=
  have h := C1_addUserThread_appends_fresh_ready_task (ManyToOne.create.addUserThread 5) 6
    Kind.OneToMany 2 [10, 11, 12] (by decide) (by decide)
  ⟨h.1, h.2.1, h.2.2.1⟩

/-- C1 fails once the registry holds `2 ^ 31` tasks: the task that the next call creates
gets the identifier `-2147483648`, not the registry size `2147483648`. -/
theorem C1_counterexample :
    ((List.replicate (2 ^ 31) 0).foldl (fun acc t => acc.addUserThread t)
        ManyToOne.create).user_threads_.length = 2 ^ 31
    ∧ (((List.replicate (2 ^ 31) 0).foldl (fun acc t => acc.addUserThread t)
        ManyToOne.create).addUserThread 0).user_threads_.getLast?
        = some { id_ := -2147483648, task_ := 0, state_ := ThreadState.READY } :=
  ⟨replicate_submissions_length (2 ^ 31) 0,
    (replicate_submissions_next (2 ^ 31) 0).trans (by decide)⟩

/-- C2: in the Many-to-One model, when tasks are submitted in order and the single worker
loop then runs (with enough fuel to reach its blocking wait), the loop returns and the
`setState` calls it has made are exactly `RUNNING, TERMINATED` for task 0, then for task 1,
and so on in submission order (registry entry `i` carries the `i`-th submitted body): no
task is set `RUNNING` before its predecessor is `TERMINATED`.  The same order holds when
submissions and worker steps interleave in any way: the history is always that of the first
`d` tasks in order, possibly followed by the `RUNNING` of task `d`.  Every dequeue takes the
head of the ready queue. -/
theorem C2_manyToOne_fifo (tasks : List Nat) (fuel : Nat) (hfuel : tasks.length < fuel) :
    (∃ m, ManyToOne.kernelThreadFunc fuel
          (tasks.foldl (fun acc t => acc.addUserThread t) (ManyToOne.start ManyToOne.create))
          = some m
        ∧ m.log_ = completionLog tasks.length
        ∧ m.user_threads_.map (fun u => u.task_) = tasks)
    ∧ (∀ (acts : List Action) (m : ThreadingModel), run acts ManyToOne.create = some m →
        ∃ d, d ≤ m.user_threads_.length
          ∧ (m.log_ = completionLog d
            ∨ m.log_ = completionLog d ++ [(d, ThreadState.RUNNING)]))
    ∧ (∀ (k : Nat) (m m' : ThreadingModel), Worker.dequeue k m = some m' →
        ∃ t, m.ready_queue_ = t :: m'.ready_queue_ ∧ m'.workers[k]? = some (Pc.picked t)) := by
  refine ⟨⟨_, manyToOne_run_all tasks fuel hfuel, ?_, ?_⟩, manyToOne_log_shape, ?_⟩
  · simp [completionLog, List.range_eq_range']
  · exact (map_task_drain _ _).trans (map_task_zipWith_create tasks)
  · intro k m m' h
    obtain ⟨t, q, hw, -, -, hq, rfl⟩ := dequeue_some h
    have hlt : k < m.workers.length := (List.getElem?_eq_some_iff.1 hw).1
    exact ⟨t, hq, by simp [List.getElem?_set_self hlt]⟩

/-- Five tasks, fuel six: the history is the ten writes in submission order. -/
theorem C2_witness :
    ∃ m, ManyToOne.kernelThreadFunc 6
          ([10, 11, 12, 13, 14].foldl (fun acc t => acc.addUserThread t)
            (ManyToOne.start ManyToOne.create)) = some m
      ∧ m.log_ = [(0, ThreadState.RUNNING), (0, ThreadState.TERMINATED),
          (1, ThreadState.RUNNING), (1, ThreadState.TERMINATED),
          (2, ThreadState.RUNNING), (2, ThreadState.TERMINATED),
          (3, ThreadState.RUNNING), (3, ThreadState.TERMINATED),
          (4, ThreadState.RUNNING), (4, ThreadState.TERMINATED)]
      ∧ m.user_threads_.map (fun u => u.task_) = [10, 11, 12, 13, 14] :=
  (C2_manyToOne_fifo [10, 11, 12, 13, 14] 6 (by decide)).1

/-- C4: in a One-to-Many or Many-to-Many model constructed with `N` execution units, after
any sequence of atomic steps (driver calls, worker steps, scheduler steps, delayed unblock
steps, in any interleaving and for any number of submitted tasks) the number of tasks whose
state is `RUNNING` is at most `N`. -/
theorem C4_pool_bound (N : Nat) (acts : List Action) (m : ThreadingModel)
    (h : run acts (OneToMany.create N) = some m ∨ run acts (ManyToMany.create N) = some m) :
    m.runningCount ≤ N := by
  rcases h with h | h
  · have := runningCount_le_units Kind.OneToMany N acts m h
    simpa [construct, OneToMany.create, ThreadingModel.create, ThreadingModel.units] using this
  · have := runningCount_le_units Kind.ManyToMany N acts m h
    simpa [construct, ManyToMany.create, ThreadingModel.create, ThreadingModel.units] using this

/-- The scenario of the specification: One-to-Many with two units and four tasks, both
units inside `execute()`. -/
theorem C4_witness :
    ∃ m, run Scenario.pool (OneToMany.create 2) = some m
      ∧ m.user_threads_.map UserThread.getState
          = [ThreadState.RUNNING, ThreadState.RUNNING, ThreadState.READY, ThreadState.READY]
      ∧ m.runningCount ≤ 2 :=
  ⟨_, rfl, rfl, C4_pool_bound 2 Scenario.pool _ (Or.inl rfl)⟩

/-- C5 (as amended): in the Many-to-One and the One-to-Many model, after any sequence of
atomic steps, no two distinct workers are inside `execute()` of the same task. -/
theorem C5_single_runner_without_scheduler (kind : Kind) (n : Int)
    (hk : kind ≠ Kind.ManyToMany) (acts : List Action) (m : ThreadingModel)
    (h : run acts (construct kind n) = some m) :
    ∀ k1 k2 t : Nat,
      m.workers[k1]? = some (Pc.inTask t) → m.workers[k2]? = some (Pc.inTask t) → k1 = k2 :=
  singleRunner_of_seqInv
    (run_invariant SeqInv seqInv_step acts _ m (seqInv_construct kind n hk) h)

/-- One-to-Many, two units, two tasks: the two workers are inside different tasks. -/
theorem C5_witness :
    ∃ m, run Scenario.twoWorkers (construct Kind.OneToMany 2) = some m
      ∧ m.workers = [Pc.inTask 0, Pc.inTask 1]
      ∧ ∀ k1 k2 t : Nat,
          m.workers[k1]? = some (Pc.inTask t) → m.workers[k2]? = some (Pc.inTask t) →
            k1 = k2 :=
  ⟨_, rfl, rfl,
    C5_single_runner_without_scheduler Kind.OneToMany 2 (by decide) Scenario.twoWorkers _ rfl⟩

/-- C5 fails in the Many-to-Many model: unit 0 is inside `execute()` of task 0, the
scheduler marks the task `BLOCKED`, the delayed operation re-enqueues it, unit 1 dequeues it
and enters `execute()` of the same task while unit 0 is still inside. -/
theorem C5_counterexample :
    ∃ m, run Scenario.reExecution (ManyToMany.create 2) = some m
      ∧ m.workers[0]? = some (Pc.inTask 0)
      ∧ m.workers[1]? = some (Pc.inTask 0)
      ∧ ¬ SingleRunner m :=
  ⟨_, rfl, rfl, rfl, fun hs => absurd (hs 0 1 0 rfl rfl) (by decide)⟩

/-- C6: after any sequence of atomic steps on a freshly constructed model of any kind, each
task reference occurs in the ready queue at most once.  A step changes the queue only by the
worker's pop of the head, by `addUserThread` (which pushes the fresh reference) or by the
push of a delayed unblock operation; in a run, the push of delayed operation `j` comes
after the `setState(READY)` of the same operation, which writes `READY` to the task it
later pushes. -/
theorem C6_queue_exclusivity (kind : Kind) (n : Int) (acts : List Action)
    (m : ThreadingModel) (h : run acts (construct kind n) = some m) :
    (∀ t, m.ready_queue_.count t ≤ 1)
    ∧ (∀ (a : Action) (m' : ThreadingModel), step a m = some m' →
        m'.ready_queue_ = m.ready_queue_
          ∨ (∃ k t, a = Action.dequeue k ∧ m.ready_queue_ = t :: m'.ready_queue_)
          ∨ (∃ task, a = Action.addUserThread task
              ∧ m'.ready_queue_ = m.ready_queue_ ++ [m.user_threads_.length])
          ∨ (∃ j i, a = Action.unblockPush j
              ∧ m.unblocks[j]? = some { thread := i, stage := Stage.readySet }
              ∧ m'.ready_queue_ = m.ready_queue_ ++ [i]))
    ∧ (∀ (before after : List Action) (j : Nat),
        acts = before ++ Action.unblockPush j :: after → Action.unblockSetReady j ∈ before)
    ∧ (∀ (j : Nat) (m' : ThreadingModel), step (Action.unblockSetReady j) m = some m' →
        ∃ i, m.unblocks[j]? = some { thread := i, stage := Stage.delayed }
          ∧ m'.unblocks[j]? = some { thread := i, stage := Stage.readySet }
          ∧ m'.log_ = m.log_ ++ [(i, ThreadState.READY)]
          ∧ m'.ready_queue_ = m.ready_queue_
          ∧ (i < m.user_threads_.length → m'.stateOf i = some ThreadState.READY)) := by
  refine ⟨queue_count_le_one kind n acts m h, fun a m' hs => queue_step a m m' hs, ?_,
    fun j m' hs => unblockSetReady_writes (act_of_step hs)⟩
  intro before after j hacts
  subst hacts
  refine setReady_before_push (construct kind n) ?_ before after j m h
  cases kind <;> rfl

/-- A Many-to-Many run in which the scheduler blocks a task and its delayed operation
re-enqueues it. -/
theorem C6_witness :
    ∃ m, run Scenario.requeue (construct Kind.ManyToMany 2) = some m
      ∧ m.ready_queue_ = [0]
      ∧ ∀ t, m.ready_queue_.count t ≤ 1 :=
  ⟨_, rfl, rfl, (C6_queue_exclusivity Kind.ManyToMany 2 Scenario.requeue _ rfl).1⟩

/-- C7 (as amended): in the Many-to-One and the One-to-Many model, after any sequence of
atomic steps, no task is `BLOCKED`; every further step leaves each task's state as it is or
changes it `READY → RUNNING` or `RUNNING → TERMINATED`; and a `TERMINATED` task stays
`TERMINATED` in every continuation of the run.  In every model a step changes a task's state
only through one of four writes that do not look at the old state: `RUNNING` when a worker
enters `execute()`, `TERMINATED` when it returns, `BLOCKED` by the scheduler, `READY` by a
delayed unblock (new tasks start as `READY`). -/
theorem C7_lifecycle_without_scheduler (kind : Kind) (n : Int)
    (hk : kind ≠ Kind.ManyToMany) (acts : List Action) (m : ThreadingModel)
    (h : run acts (construct kind n) = some m) :
    (∀ t, m.stateOf t ≠ some ThreadState.BLOCKED)
    ∧ (∀ (a : Action) (m' : ThreadingModel) (t : Nat) (old : ThreadState),
        step a m = some m' → m.stateOf t = some old →
          ∃ new, m'.stateOf t = some new ∧ (new = old ∨ lifecycleAllows kind old new = true))
    ∧ (∀ (later : List Action) (m' : ThreadingModel) (t : Nat),
        run later m = some m' → m.stateOf t = some ThreadState.TERMINATED →
          m'.stateOf t = some ThreadState.TERMINATED)
    ∧ (∀ (a : Action) (m1 m2 : ThreadingModel) (t : Nat), step a m1 = some m2 →
        m2.stateOf t = m1.stateOf t
          ∨ (∃ task, a = Action.addUserThread task ∧ m1.stateOf t = none
              ∧ m2.stateOf t = some ThreadState.READY)
          ∨ (∃ k, a = Action.executeBegin k ∧ m1.workers[k]? = some (Pc.picked t)
              ∧ m2.stateOf t = (m1.stateOf t).map (fun _ => ThreadState.RUNNING))
          ∨ (∃ k, a = Action.executeEnd k ∧ m1.workers[k]? = some (Pc.inTask t)
              ∧ m2.stateOf t = (m1.stateOf t).map (fun _ => ThreadState.TERMINATED))
          ∨ (a = Action.schedulerBlock ∧ m1.sched = some t
              ∧ m2.stateOf t = (m1.stateOf t).map (fun _ => ThreadState.BLOCKED))
          ∨ (∃ j, a = Action.unblockSetReady j
              ∧ m1.unblocks[j]? = some { thread := t, stage := Stage.delayed }
              ∧ m2.stateOf t = (m1.stateOf t).map (fun _ => ThreadState.READY))) := by
  have hinv : SeqInv m :=
    run_invariant SeqInv seqInv_step acts _ m (seqInv_construct kind n hk) h
  refine ⟨fun t => (hinv.2.2.2 t).2.2.2, ?_, ?_, fun a m1 m2 t hs => stateOf_step a m1 m2 hs t⟩
  · intro a m' t old hs hold
    rcases seq_lifecycle hinv a hs t old hold with e | ⟨e1, e2⟩ | ⟨e1, e2⟩
    · exact ⟨old, e, Or.inl rfl⟩
    · exact ⟨_, e2, Or.inr (e1 ▸ lifecycleAllows_ready_running kind)⟩
    · exact ⟨_, e2, Or.inr (e1 ▸ lifecycleAllows_running_terminated kind)⟩
  · intro later m' t hrun ht
    exact seq_terminated_final t later m m' hinv ht hrun

/-- One-to-Many: a task run to completion is `TERMINATED`, and no task is `BLOCKED`. -/
theorem C7_witness :
    ∃ m, run Scenario.oneTaskDone (construct Kind.OneToMany 2) = some m
      ∧ m.stateOf 0 = some ThreadState.TERMINATED
      ∧ ∀ t, m.stateOf t ≠ some ThreadState.BLOCKED :=
  ⟨_, rfl, rfl,
    (C7_lifecycle_without_scheduler Kind.OneToMany 2 (by decide) Scenario.oneTaskDone _ rfl).1⟩

/-- C7 fails in the Many-to-Many model: the scheduler marks task 0 `BLOCKED` while worker 0
is inside its `execute()`; the return from `execute()` then takes the task from `BLOCKED`
to `TERMINATED`, and the delayed unblock takes it from `TERMINATED` to `READY`. -/
theorem C7_counterexample :
    ∃ m m' m'', run Scenario.blockedInFlight (ManyToMany.create 1) = some m
      ∧ step (Action.executeEnd 0) m = some m'
      ∧ step (Action.unblockSetReady 0) m' = some m''
      ∧ m.stateOf 0 = some ThreadState.BLOCKED
      ∧ m'.stateOf 0 = some ThreadState.TERMINATED
      ∧ m''.stateOf 0 = some ThreadState.READY
      ∧ lifecycleAllows Kind.ManyToMany ThreadState.BLOCKED ThreadState.TERMINATED = false
      ∧ lifecycleAllows Kind.ManyToMany ThreadState.TERMINATED ThreadState.READY = false :=
  ⟨_, _, _, rfl, rfl, rfl, rfl, rfl, rfl, rfl, rfl⟩

/-- C8 (as amended): the text `displayStatus` writes is, line by line (each line ended by a
newline): an empty line, `=== <name> Model Status ===`, the header
` Thread ID          State`, a rule of 30 dashes, one row per registry entry in registry
order, and a second rule of 30 dashes, `n + 5` lines in all.  A row is the decimal
identifier right-aligned in 10 columns followed by the label `READY`, `RUNNING`, `BLOCKED` or
`TERMINATED` right-aligned in 15 columns.  The decimal identifier is a minus sign for a
negative value followed by the digits of the magnitude, which denote the magnitude and have
no leading zero.  A row is `max 10 r + 15` characters long, with `r` the length of the
decimal identifier, sign included: 25 characters when `r ≤ 10`, which is so for every
identifier above `-10 ^ 9` (and below `10 ^ 10`). -/
theorem C8_displayStatus_table (m : ThreadingModel) :
    m.displayStatus
        = ((([[], "=== ".data ++ m.name_.data ++ " Model Status ===".data,
              " Thread ID          State".data, "------------------------------".data]
            ++ m.user_threads_.map statusRow) ++ ["------------------------------".data]).map
              (fun l => l ++ ['\n'])).flatten
    ∧ (([[], "=== ".data ++ m.name_.data ++ " Model Status ===".data,
          " Thread ID          State".data, "------------------------------".data]
        ++ m.user_threads_.map statusRow) ++ ["------------------------------".data]).length
        = m.user_threads_.length + 5
    ∧ (∀ (i : Int) (k : Nat), statusRow { id_ := i, task_ := k, state_ := ThreadState.READY }
        = List.replicate (10 - (decimal i).length) ' ' ++ decimal i ++ "          READY".data)
    ∧ (∀ (i : Int) (k : Nat), statusRow { id_ := i, task_ := k, state_ := ThreadState.RUNNING }
        = List.replicate (10 - (decimal i).length) ' ' ++ decimal i ++ "        RUNNING".data)
    ∧ (∀ (i : Int) (k : Nat), statusRow { id_ := i, task_ := k, state_ := ThreadState.BLOCKED }
        = List.replicate (10 - (decimal i).length) ' ' ++ decimal i ++ "        BLOCKED".data)
    ∧ (∀ (i : Int) (k : Nat),
        statusRow { id_ := i, task_ := k, state_ := ThreadState.TERMINATED }
        = List.replicate (10 - (decimal i).length) ' ' ++ decimal i ++ "     TERMINATED".data)
    ∧ (∀ n : Nat, decimal (Int.ofNat n) = decimalNat n
        ∧ decimal (Int.negSucc n) = '-' :: decimalNat (n + 1)
        ∧ digitsValue (decimalNat n) = n
        ∧ (∀ c ∈ decimalNat n, c.isDigit = true)
        ∧ (n ≠ 0 → ∃ c, (decimalNat n).head? = some c ∧ c ≠ '0'))
    ∧ decimalNat 0 = ['0']
    ∧ (∀ u ∈ m.user_threads_,
        (statusRow u).length = max 10 (decimal u.getId).length + 15
        ∧ ((decimal u.getId).length ≤ 10 → (statusRow u).length = 25)
        ∧ (-(10 ^ 9) < u.getId → u.getId < 10 ^ 10 → (statusRow u).length = 25)) := by
  refine ⟨displayStatusText_lines m.name_ m.user_threads_, by simp, fun i k => rfl,
    fun i k => rfl, fun i k => rfl, fun i k => rfl, fun n => ⟨decimal_ofNat n,
      decimal_negSucc n, digitsValue_decimalNat n, isDigit_decimalNat n, head?_decimalNat n⟩,
    rfl, fun u _ => ⟨statusRow_length u, fun h => ?_, fun h1 h2 => ?_⟩⟩
  · rw [statusRow_length, max_eq_left h]
  · rw [statusRow_length, max_eq_left (decimal_length_le _ h1 h2)]

set_option maxRecDepth 20000 in
/-- The table of a Many-to-Many model with twelve tasks in the four states, and the rows of
the largest identifier and of the longest one that fits in 10 columns. -/
theorem C8_witness :
    (∃ m, run Scenario.table (ManyToMany.create 3) = some m
      ∧ String.mk m.displayStatus
          = "\n=== Many-to-Many Model Status ===\n Thread ID          State\n------------------------------\n         0        BLOCKED\n         1     TERMINATED\n         2        RUNNING\n         3          READY\n         4          READY\n         5          READY\n         6          READY\n         7          READY\n         8          READY\n         9          READY\n        10          READY\n        11          READY\n------------------------------\n"
      ∧ ∀ u ∈ m.user_threads_, (statusRow u).length = 25)
    ∧ statusRow { id_ := 2147483647, task_ := 0, state_ := ThreadState.RUNNING }
        = "2147483647        RUNNING".data
    ∧ statusRow { id_ := -999999999, task_ := 0, state_ := ThreadState.TERMINATED }
        = "-999999999     TERMINATED".data := by
  refine ⟨⟨_, rfl, rfl, fun u hu => ?_⟩, by decide, by decide⟩
  refine ((C8_displayStatus_table _).2.2.2.2.2.2.2.2 u hu).2.1 ?_
  revert u
  decide

/-- C8 fails for the task submitted after `2 ^ 31` others: its identifier is `-2147483648`,
which has 10 digits, and its row is 26 characters long. -/
theorem C8_counterexample :
    ∃ u, ((List.replicate (2 ^ 31 + 1) 0).foldl (fun acc t => acc.addUserThread t)
          ManyToOne.create).user_threads_.getLast? = some u
      ∧ u.getId = -2147483648
      ∧ (decimalNat u.getId.natAbs).length = 10
      ∧ statusRow u = "-2147483648          READY".data
      ∧ (statusRow u).length = 26 :=
  ⟨_, replicate_submissions_last (2 ^ 31) 0, by decide, by decide, by decide, by decide⟩

/-- C9 (the code at `start(); stop()`, against the claim that `stop()` leaves every unit
stopped): `ThreadingModel::stop` clears the model's run flag and nothing else, so the units'
running flags are as before the call, `true` for every unit of a pooled model; the
Many-to-One unit's flag is cleared only later, by the worker itself when it leaves its
loop, and the `join` that follows in the worker terminates the process. -/
theorem C9_stop_leaves_units_running :
    (∀ m : ThreadingModel, m.stop.running_ = false ∧ m.stop.units = m.units)
    ∧ (∃ m, run [Action.start, Action.stop] (OneToMany.create 3) = some m
        ∧ m.running_ = false
        ∧ m.units.map (fun kt => kt.running_) = [true, true, true])
    ∧ (∃ m, run [Action.start, Action.stop] (ManyToMany.create 3) = some m
        ∧ m.running_ = false
        ∧ m.units.map (fun kt => kt.running_) = [true, true, true])
    ∧ (∃ m m', run [Action.start, Action.stop] ManyToOne.create = some m
        ∧ m.running_ = false
        ∧ m.units.map (fun kt => kt.running_) = [true]
        ∧ step (Action.leave 0) m = some m'
        ∧ m'.units.map (fun kt => kt.running_) = [false]
        ∧ (step (Action.joinSelf 0) m').map (fun x => x.aborted) = some true) :=
  ⟨fun _ => ⟨rfl, rfl⟩, ⟨_, rfl, rfl, rfl⟩, ⟨_, rfl, rfl, rfl⟩,
    ⟨_, _, rfl, rfl, rfl, rfl, rfl, rfl⟩⟩

/-- C10 (the code at `start(); addUserThread(body)` once the worker has dequeued the task and
is inside its `execute()`, against the claim that the flag is then cleared): in the
Many-to-One model the worker holds task 0, the task is `RUNNING`, and the availability flag
of the single unit is still set, because `ManyToOne::kernelThreadFunc` never writes it.  The
same run on a One-to-Many and on a Many-to-Many model with one unit leaves the flag cleared,
as those loops clear it before the dequeue and set it after `execute()`. -/
theorem C10_manyToOne_flag_set_inside_execute :
    (∃ m, run Scenario.bodyRunning ManyToOne.create = some m
      ∧ m.workers[0]? = some (Pc.inTask 0)
      ∧ m.busy 0 = true
      ∧ m.stateOf 0 = some ThreadState.RUNNING
      ∧ m.units.map KernelThread.isAvailable = [true])
    ∧ (∃ m, run Scenario.bodyRunning (OneToMany.create 1) = some m
      ∧ m.workers[0]? = some (Pc.inTask 0)
      ∧ m.busy 0 = true
      ∧ m.stateOf 0 = some ThreadState.RUNNING
      ∧ m.units.map KernelThread.isAvailable = [false])
    ∧ (∃ m, run Scenario.bodyRunning (ManyToMany.create 1) = some m
      ∧ m.workers[0]? = some (Pc.inTask 0)
      ∧ m.busy 0 = true
      ∧ m.stateOf 0 = some ThreadState.RUNNING
      ∧ m.units.map KernelThread.isAvailable = [false]) :=
  ⟨⟨_, rfl, rfl, rfl, rfl, rfl⟩, ⟨_, rfl, rfl, rfl, rfl, rfl⟩, ⟨_, rfl, rfl, rfl, rfl, rfl⟩⟩

end ThreadSim
